import Mathlib

/-! wipe -- a secure erasure utility

A shallow embedding of `wipe.c` and a verification of its specification.

The program talks to the operating system through a handful of C library
calls.  The embedding makes that boundary explicit: a `World` answers every
call, every call that is issued is appended to a log of `Event`s together with
the value it returned, and everything the program prints is appended to a
second log of `Output`s.  `int` variables are mathematical integers that are
reduced to 32 bits (two's complement) where the C code stores a wider value
in them.
-/

namespace Wipe

/-! ## Machine integers -/

/-- An `unsigned char`, kept as its value `0 .. 255`. -/
abbrev Byte := Nat

/-- The smallest `int`. -/
def INT_MIN : Int := -2147483648

/-- The largest `int`. -/
def INT_MAX : Int := 2147483647

/-- Conversion of a wider integer (`off_t`, `blksize_t`, `long`) to `int`:
the value is reduced modulo `2^32` into the range of `int`. -/
def toInt32 (x : Int) : Int := (x + 2147483648) % 4294967296 - 2147483648

/-- The `/` of C on `int`: truncation toward zero.  A zero divisor and
`INT_MIN / -1` have no defined result. -/
def c_div (a b : Int) : Option Int :=
  if b = 0 then none
  else if a = INT_MIN ∧ b = -1 then none
  else some (Int.tdiv a b)

/-- The `%` of C on `int`: the remainder has the sign of the dividend.  It is
defined exactly where `c_div` is. -/
def c_mod (a b : Int) : Option Int :=
  if b = 0 then none
  else if a = INT_MIN ∧ b = -1 then none
  else some (Int.tmod a b)

/-! ## The boundary to the operating system -/

/-- The access mode passed to `open`. -/
inductive OFlag
  | O_RDONLY
  | O_WRONLY
  deriving DecidableEq, Repr

/-- A call into the file layer or the allocator, with its arguments and the
value it returned.  A buffer argument is `none` for the null pointer and
otherwise the bytes of the block it points to. -/
inductive Event
  | c_open (path : String) (flags : OFlag) (ret : Int)
  | c_fstat (fd : Int) (ret : Int)
  | c_posix_memalign (alignment size : Int) (ret : Int)
  | c_read (fd : Int) (count : Int) (ret : Int)
  | c_lseek (fd : Int) (offset : Int) (ret : Int)
  | c_write (fd : Int) (buf : Option (List Byte)) (count : Int) (ret : Int)
  | c_fsync (fd : Int) (ret : Int)
  | c_free (buf : Option (List Byte))
  | c_close (fd : Int)
  | c_unlink (path : String) (ret : Int)
  deriving DecidableEq, Repr

/-- Something the program printed. `err_descr` is the line
`Descr: <strerror(errno)> (errno: <errno>)`, whose text is the system's. -/
inductive Output
  | stdout (text : String)
  | stderr (text : String)
  | err_descr
  deriving DecidableEq, Repr

/-- The environment of one run.  Calls that a run issues at most once are
answered from their arguments; `lseek`, `write` and `fsync`, which are issued
repeatedly, are answered from the log of all calls issued before them as well,
so that any sequence of answers can be described. -/
structure World where
  /-- Result of `open(path, flags)`: a descriptor, or a negative value. -/
  c_open : String → OFlag → Int
  /-- Result of `fstat(fd, &file_stat)`. -/
  c_fstat : Int → Int
  /-- The field `st_blksize` that `fstat` stores. -/
  st_blksize : Int
  /-- The field `st_size` that `fstat` stores. -/
  st_size : Int
  /-- Result of `posix_memalign(&buffer, alignment, size)`; `0` is success. -/
  c_posix_memalign : Int → Int → Int
  /-- The indeterminate bytes of a freshly allocated block. -/
  heap : Nat → Byte
  /-- Result of `read(fd, buffer, count)` on the entropy device. -/
  c_read : Int → Int → Int
  /-- The bytes the entropy device delivers. -/
  entropy : Nat → Byte
  /-- Result of `lseek(fd, offset, SEEK_SET)`. -/
  c_lseek : List Event → Int → Int → Int
  /-- Result of `write(fd, buffer, count)`. -/
  c_write : List Event → Int → Option (List Byte) → Int → Int
  /-- Result of `fsync(fd)`. -/
  c_fsync : List Event → Int → Int
  /-- Result of `unlink(path)`. -/
  c_unlink : String → Int

/-- What a run has done so far: the calls it issued and what it printed, both
oldest first. -/
structure State where
  ops : List Event
  out : List Output
  deriving DecidableEq, Repr

/-- Record a call. -/
def State.log (s : State) (e : Event) : State :=
  { ops := s.ops ++ [e], out := s.out }

/-- Record printed text. -/
def State.print (s : State) (o : List Output) : State :=
  { ops := s.ops, out := s.out ++ o }

/-- A finished run of a function returning `int`: the calls, the printed
text, and the returned value, `none` when the run performed an operation
without defined behaviour. -/
structure Run where
  ops : List Event
  out : List Output
  ret : Option Int
  deriving DecidableEq, Repr

/-- Finish a run in state `s` with returned value `r`. -/
def State.finish (s : State) (r : Option Int) : Run :=
  { ops := s.ops, out := s.out, ret := r }

/-! ## The program -/

def OUTPUT_COLOR_RED : String := "\x1b[0;31m"

def OUTPUT_COLOR_NORMAL : String := "\x1b[0m"

def METHOD_ZERO : String := "zero"

def METHOD_ONE : String := "one"

def METHOD_RAND : String := "rand"

/-- `print_error`: the message on the standard error stream, in red, followed
by the description of `errno` when `print_errno` is non-zero. -/
def print_error (print_errno : Int) (message : String) (s : State) : State :=
  s.print
    ([Output.stderr OUTPUT_COLOR_RED, Output.stderr ("Error: " ++ message ++ "\n")]
      ++ (if print_errno ≠ 0 then [Output.err_descr] else [])
      ++ [Output.stderr OUTPUT_COLOR_NORMAL])

/-- `print_verbose`: the formatted text on standard output when `verbose` is
non-zero, nothing otherwise. -/
def print_verbose (verbose : Int) (text : String) (s : State) : State :=
  if verbose ≠ 0 then s.print [Output.stdout text] else s

/-- `print_error_verbose`: `print_error` when `verbose` is non-zero. -/
def print_error_verbose (verbose : Int) (print_errno : Int) (message : String)
    (s : State) : State :=
  if verbose ≠ 0 then print_error print_errno message s else s

/-- `generate_buffer`: an aligned block of `size_in_bytes` bytes, every byte
set to `value`; the null pointer (`none`) when the allocation fails. -/
def generate_buffer (w : World) (size_in_bytes : Int) (value : Byte) (s : State) :
    Option (List Byte) × State :=
  let r := w.c_posix_memalign size_in_bytes size_in_bytes
  let s := s.log (Event.c_posix_memalign size_in_bytes size_in_bytes r)
  if r ≠ 0 then (none, s)
  else (some (List.replicate size_in_bytes.toNat value), s)

/-- The block after `read` stored `n` bytes of the entropy device at its
start: the bytes behind them are what the allocator left there. -/
def random_block (w : World) (size_in_bytes n : Int) : List Byte :=
  (List.range size_in_bytes.toNat).map
    (fun (k : Nat) => if (k : Int) < n then w.entropy k else w.heap k)

/-- `generate_random_buffer`: an aligned block filled by one `read` from
`/dev/urandom`; the null pointer (`none`) when the device cannot be opened,
the allocation fails, or `read` returns a negative value. -/
def generate_random_buffer (w : World) (size_in_bytes : Int) (s : State) :
    Option (List Byte) × State :=
  let urandom_fd := w.c_open "/dev/urandom" OFlag.O_RDONLY
  let s := s.log (Event.c_open "/dev/urandom" OFlag.O_RDONLY urandom_fd)
  if urandom_fd < 0 then (none, s)
  else
    let r := w.c_posix_memalign size_in_bytes size_in_bytes
    let s := s.log (Event.c_posix_memalign size_in_bytes size_in_bytes r)
    if r ≠ 0 then (none, s)
    else
      let n := w.c_read urandom_fd size_in_bytes
      let s := s.log (Event.c_read urandom_fd size_in_bytes n)
      if n < 0 then (none, s)
      else
        let s := s.log (Event.c_close urandom_fd)
        (some (random_block w size_in_bytes n), s)

/-- The inner loop of `overwrite`, `for (j = 0; j < full_buffers; j++)`, with
`k` iterations still to run and `j` the current index.  The flag is `false`
when the loop left `overwrite` through `return -1`. -/
def write_blocks (w : World) (verbose fd : Int) (buffer : Option (List Byte))
    (buffer_size full_buffers : Int) : Nat → Int → State → Bool × State
  | 0, _, s => (true, s)
  | k + 1, j, s =>
    let s := print_verbose verbose
      ("Writing block " ++ toString (j + 1) ++ "/" ++ toString full_buffers ++ "\n") s
    let r := w.c_write s.ops fd buffer buffer_size
    let s := s.log (Event.c_write fd buffer buffer_size r)
    if r < 1 then (false, print_error_verbose verbose 1 "Can't write buffer" s)
    else write_blocks w verbose fd buffer buffer_size full_buffers k (j + 1) s

/-- The outer loop of `overwrite`, `for (i = 0; i < passes; i++)`, with `k`
iterations still to run and `i` the current index.  The flag is `false` when
the loop left `overwrite` through `return -1`. -/
def pass_loop (w : World) (verbose fd : Int) (buffer : Option (List Byte))
    (buffer_size full_buffers remainder passes : Int) : Nat → Int → State → Bool × State
  | 0, _, s => (true, s)
  | k + 1, i, s =>
    let s := print_verbose verbose
      ("Starting pass " ++ toString (i + 1) ++ "/" ++ toString passes ++ "\n") s
    let s := print_verbose verbose "Rewinding file\n" s
    let r := w.c_lseek s.ops fd 0
    let s := s.log (Event.c_lseek fd 0 r)
    if r < 0 then (false, print_error_verbose verbose 1 "Can't rewind file" s)
    else
      match write_blocks w verbose fd buffer buffer_size full_buffers
          full_buffers.toNat 0 s with
      | (false, s) => (false, s)
      | (true, s) =>
        let s := print_verbose verbose "Writing remainder\n" s
        let r := w.c_write s.ops fd buffer remainder
        let s := s.log (Event.c_write fd buffer remainder r)
        if r < 0 then (false, print_error_verbose verbose 1 "Can't write remainder" s)
        else
          let s := print_verbose verbose "Flushing to disc\n" s
          let r := w.c_fsync s.ops fd
          let s := s.log (Event.c_fsync fd r)
          if r < 0 then
            (false, print_error_verbose verbose 1 "Can't flush data to disc" s)
          else
            pass_loop w verbose fd buffer buffer_size full_buffers remainder passes
              k (i + 1) s

/-- The part of `overwrite` behind the choice of the method: the passes, then
the release of the buffer, a last `fsync` and `close`. -/
def overwrite_passes (w : World) (verbose fd : Int) (buffer : Option (List Byte))
    (buffer_size full_buffers remainder passes : Int) (s : State) : Run :=
  let s := print_verbose verbose "Starting overwrite\n" s
  match pass_loop w verbose fd buffer buffer_size full_buffers remainder passes
      passes.toNat 0 s with
  | (false, s) => s.finish (some (-1))
  | (true, s) =>
    let s := print_verbose verbose "Overwrite finished\n" s
    let s := s.log (Event.c_free buffer)
    let s := s.log (Event.c_fsync fd (w.c_fsync s.ops fd))
    let s := s.log (Event.c_close fd)
    s.finish (some 0)

/-- `overwrite`. -/
def overwrite (w : World) (path method : String) (passes verbose : Int) : Run :=
  let s : State := { ops := [], out := [] }
  let fd := w.c_open path OFlag.O_WRONLY
  let s := s.log (Event.c_open path OFlag.O_WRONLY fd)
  if fd < 0 then
    (print_error_verbose verbose 1 "Can't open file" s).finish (some (-1))
  else
    let st := w.c_fstat fd
    let s := s.log (Event.c_fstat fd st)
    if st < 0 then
      (print_error_verbose verbose 1 "Can't get file stats" s).finish (some (-1))
    else
      let buffer_size := toInt32 w.st_blksize
      let file_size := toInt32 w.st_size
      match c_div file_size buffer_size, c_mod file_size buffer_size with
      | some full_buffers, some remainder =>
        if method = METHOD_ZERO then
          let (buffer, s) := generate_buffer w buffer_size 0 s
          overwrite_passes w verbose fd buffer buffer_size full_buffers remainder passes s
        else if method = METHOD_ONE then
          let (buffer, s) := generate_buffer w buffer_size 255 s
          overwrite_passes w verbose fd buffer buffer_size full_buffers remainder passes s
        else if method = METHOD_RAND then
          let (buffer, s) := generate_random_buffer w buffer_size s
          overwrite_passes w verbose fd buffer buffer_size full_buffers remainder passes s
        else
          (print_error_verbose verbose 0 "Given method does not exist" s).finish (some (-1))
      | _, _ => s.finish none

/-! ## The command line -/

/-- The `isspace` of the C locale. -/
def isspace (c : Char) : Bool :=
  c.toNat = 32 || (9 ≤ c.toNat && c.toNat ≤ 13)

/-- The value of the leading decimal digits of `cs`, continuing from `acc`. -/
def digits_value : List Char → Nat → Nat
  | [], acc => acc
  | c :: cs, acc =>
    if 48 ≤ c.toNat ∧ c.toNat ≤ 57 then digits_value cs (acc * 10 + (c.toNat - 48))
    else acc

/-- The `strtol(s, NULL, 10)` of the C library on a 64-bit `long`: leading
white space, an optional sign, the decimal digits that follow; a value out of
range is replaced by the nearest `long`. -/
def strtol10 (s : String) : Int :=
  let cs := s.toList.dropWhile isspace
  let v : Int :=
    match cs with
    | [] => 0
    | c :: rest =>
      if c.toNat = 45 then -(digits_value rest 0 : Int)
      else if c.toNat = 43 then (digits_value rest 0 : Int)
      else (digits_value cs 0 : Int)
  max (-9223372036854775808) (min 9223372036854775807 v)

/-- The `atoi` of the C library, `(int) strtol(s, NULL, 10)`. -/
def atoi (s : String) : Int := toInt32 (strtol10 s)

/-- `struct arguments`.  `args` is the one-element array `args[1]`; `none`
is the element before anything was stored in it. -/
structure arguments where
  args : Option String
  method : String
  passes : Int
  verbose : Int
  unlink : Int
  deriving DecidableEq, Repr

/-- The key `'m'`. -/
def KEY_m : Int := 109

/-- The key `'p'`. -/
def KEY_p : Int := 112

/-- The key `'v'`. -/
def KEY_v : Int := 118

/-- The key `'u'`. -/
def KEY_u : Int := 117

def ARGP_KEY_ARG : Int := 0

def ARGP_KEY_END : Int := 16777217

/-- The error code `E2BIG`, which argp uses for an unrecognised key. -/
def ARGP_ERR_UNKNOWN : Int := 7

/-- The status with which `argp_usage` and argp's own errors end the
process, `EX_USAGE`. -/
def argp_err_exit_status : Int := 64

/-- How one call of `parse_opt` ends: it returns a code, it ends the process
through `argp_usage`, or it stores behind the end of `args`, which has no
defined behaviour. -/
inductive Parsed
  | returned (a : arguments) (code : Int)
  | usage_exit
  | undefined
  deriving DecidableEq, Repr

/-- `parse_opt`, with `arg_num` the field `state->arg_num`. -/
def parse_opt (key : Int) (arg : String) (arg_num : Nat) (a : arguments) : Parsed :=
  if key = KEY_m then Parsed.returned { a with method := arg } 0
  else if key = KEY_p then Parsed.returned { a with passes := atoi arg } 0
  else if key = KEY_v then Parsed.returned { a with verbose := 1 } 0
  else if key = KEY_u then Parsed.returned { a with unlink := 1 } 0
  else if key = ARGP_KEY_ARG then
    if arg_num > 1 then Parsed.usage_exit
    else if arg_num = 0 then Parsed.returned { a with args := some arg } 0
    else Parsed.undefined
  else if key = ARGP_KEY_END then
    if arg_num < 1 then Parsed.usage_exit
    else Parsed.returned a 0
  else Parsed.returned a ARGP_ERR_UNKNOWN

/-- The keys of the table `options`: `--method`, `--passes`, `--verbose` and
`--unlink`. -/
def options : List Int := [KEY_m, KEY_p, KEY_v, KEY_u]

/-- One element of the command line as argp reads it: an option with its key
and argument, or an argument without a flag. -/
inductive Item
  | option (key : Int) (arg : String)
  | positional (arg : String)
  deriving DecidableEq, Repr

/-- How `argp_parse` ends: it returns to `main`, it ends the process with a
status, or the parser ran into undefined behaviour. -/
inductive ParseEnd
  | done (a : arguments)
  | exit (status : Int)
  | undefined
  deriving DecidableEq, Repr

/-- The key `'?'` of the option `--help`, which argp adds to every program. -/
def KEY_HELP : Int := 63

/-- The key of the option `--usage`, which argp adds to every program. -/
def OPT_USAGE : Int := -3

/-- The key of the hidden option `--program-name`, which argp adds to every
program. -/
def OPT_PROGNAME : Int := -2

/-- The key of the hidden option `--HANG`, which argp adds to every program. -/
def OPT_HANG : Int := -4

/-- The key `'V'` of the option `--version`, which argp adds because the
program sets `argp_program_version`. -/
def KEY_VERSION : Int := 86

/-- The `argp_parse` of the C library as `main` calls it, with flags 0: it
handles every element of the command line in turn, counting the arguments
without a flag in `arg_num`, and calls `parse_opt` with `ARGP_KEY_END` at the
end.  An option of the table `options` goes to `parse_opt`.  The options
`--help`, `--usage` and `--version` are handled by the library itself: it
prints its text and ends the process with status 0.  The hidden options
`--program-name` and `--HANG` are handled by the library too and the parse
goes on.  Any other option ends the process with a usage error.  What the
library prints is not recorded. -/
def argp_parse : List Item → Nat → arguments → ParseEnd
  | [], arg_num, a =>
    match parse_opt ARGP_KEY_END "" arg_num a with
    | Parsed.returned a _ => ParseEnd.done a
    | Parsed.usage_exit => ParseEnd.exit argp_err_exit_status
    | Parsed.undefined => ParseEnd.undefined
  | Item.option key arg :: rest, arg_num, a =>
    if key ∈ options then
      match parse_opt key arg arg_num a with
      | Parsed.returned a code =>
        if code = 0 then argp_parse rest arg_num a
        else ParseEnd.exit argp_err_exit_status
      | Parsed.usage_exit => ParseEnd.exit argp_err_exit_status
      | Parsed.undefined => ParseEnd.undefined
    else if key = KEY_HELP ∨ key = OPT_USAGE ∨ key = KEY_VERSION then ParseEnd.exit 0
    else if key = OPT_PROGNAME ∨ key = OPT_HANG then argp_parse rest arg_num a
    else ParseEnd.exit argp_err_exit_status
  | Item.positional arg :: rest, arg_num, a =>
    match parse_opt ARGP_KEY_ARG arg arg_num a with
    | Parsed.returned a code =>
      if code = 0 then argp_parse rest (arg_num + 1) a
      else ParseEnd.exit argp_err_exit_status
    | Parsed.usage_exit => ParseEnd.exit argp_err_exit_status
    | Parsed.undefined => ParseEnd.undefined

/-- One call of `overwrite` by `main`, with its arguments. -/
structure Call where
  path : String
  method : String
  passes : Int
  verbose : Int
  deriving DecidableEq, Repr

/-- A finished run of `main`: the calls of `overwrite` it made, the calls
into the file layer, the printed text, and the exit status, `none` when the
run had no defined behaviour. -/
structure MainRun where
  calls : List Call
  ops : List Event
  out : List Output
  status : Option Int
  deriving DecidableEq, Repr

/-- `main`, on the command line `cmdline`. -/
def main (w : World) (cmdline : List Item) : MainRun :=
  let args : arguments :=
    { args := none, method := METHOD_ZERO, passes := 1, verbose := 0, unlink := 0 }
  let s : State := { ops := [], out := [] }
  match argp_parse cmdline 0 args with
  | ParseEnd.undefined => { calls := [], ops := [], out := [], status := none }
  | ParseEnd.exit status => { calls := [], ops := [], out := [], status := some status }
  | ParseEnd.done args =>
    match args.args with
    | none => { calls := [], ops := [], out := [], status := none }
    | some file_path =>
      if args.passes ≤ 0 then
        let s := print_error 0 "Incorrect number of passes" s
        { calls := [], ops := s.ops, out := s.out, status := some (-1) }
      else if args.method ≠ METHOD_ZERO ∧ args.method ≠ METHOD_ONE
          ∧ args.method ≠ METHOD_RAND then
        let s := print_error 0 "Given method does not exist" s
        { calls := [], ops := s.ops, out := s.out, status := some (-1) }
      else
        let r := overwrite w file_path args.method args.passes args.verbose
        let calls := [Call.mk file_path args.method args.passes args.verbose]
        let s : State := { ops := r.ops, out := r.out }
        match r.ret with
        | none => { calls := calls, ops := s.ops, out := s.out, status := none }
        | some v =>
          if v < 0 then
            let s := print_error 0 "Secure erasure unsuccessful" s
            { calls := calls, ops := s.ops, out := s.out, status := some (-1) }
          else
            let s := s.print [Output.stdout "Unmount the device to force sync.\n"]
            if args.unlink ≠ 0 then
              let s := print_verbose args.verbose "Unlinking file\n" s
              let u := w.c_unlink file_path
              let s := s.log (Event.c_unlink file_path u)
              if u < 0 then
                let s := print_error 1 "Unlinking file unsuccessful" s
                { calls := calls, ops := s.ops, out := s.out, status := some (-1) }
              else { calls := calls, ops := s.ops, out := s.out, status := some 0 }
            else { calls := calls, ops := s.ops, out := s.out, status := some 0 }

/-! ## Observations on runs -/

/-- Whether the event is a call of `write`. -/
def Event.is_write : Event → Bool
  | Event.c_write _ _ _ _ => true
  | _ => false

/-- Whether the event is a call of `lseek`. -/
def Event.is_lseek : Event → Bool
  | Event.c_lseek _ _ _ => true
  | _ => false

/-- Whether the event is a call of `fsync`. -/
def Event.is_fsync : Event → Bool
  | Event.c_fsync _ _ => true
  | _ => false

/-- The requested and the returned length of a call of `write`. -/
def Event.transfer : Event → Option (Int × Int)
  | Event.c_write _ _ count ret => some (count, ret)
  | _ => none

/-- The bytes a call of `write` put into the file: the first `ret` bytes of
its buffer. -/
def Event.data : Event → List Byte
  | Event.c_write _ (some buf) _ ret => buf.take ret.toNat
  | _ => []

/-- The bytes a sequence of calls put into the file, in order. -/
def written (ops : List Event) : List Byte :=
  (ops.map Event.data).flatten

/-- The descriptors that are open after a sequence of calls, `fds` being
open before it. -/
def open_fds : List Event → List Int → List Int
  | [], fds => fds
  | Event.c_open _ _ ret :: ops, fds =>
    if 0 ≤ ret then open_fds ops (fds ++ [ret]) else open_fds ops fds
  | Event.c_close fd :: ops, fds => open_fds ops (fds.erase fd)
  | _ :: ops, fds => open_fds ops fds

/-- The number of allocated blocks that are not freed after a sequence of
calls, `n` being allocated before it. -/
def live_blocks : List Event → Int → Int
  | [], n => n
  | Event.c_posix_memalign _ _ ret :: ops, n =>
    if ret = 0 then live_blocks ops (n + 1) else live_blocks ops n
  | Event.c_free (some _) :: ops, n => live_blocks ops (n - 1)
  | _ :: ops, n => live_blocks ops n

/-- The number of calls of `write`. -/
def count_writes (ops : List Event) : Nat := ops.countP Event.is_write

/-- The number of calls of `write` that were asked for `count` bytes. -/
def count_writes_of (count : Int) (ops : List Event) : Nat :=
  ops.countP (fun e => decide (e.transfer.map Prod.fst = some count))

/-- The number of calls of `fsync`. -/
def count_fsyncs (ops : List Event) : Nat := ops.countP Event.is_fsync

/-- Whether the event is a `write` that the guards of `overwrite` reject,
`bs` being the size of a block: a `write` that returned a negative value, or a
`write` of a whole block that transferred no byte. -/
def Event.failed_write (bs : Int) : Event → Bool
  | Event.c_write _ _ count ret => decide (ret < 0) || (decide (ret < 1) && decide (count = bs))
  | _ => false

/-- No `write` among the calls has failed. -/
def clean (bs : Int) (ops : List Event) : Prop :=
  ∀ e ∈ ops, e.failed_write bs = false

/-- Every call on the target `path` and every allocation succeeds, and every
`write` transfers the length it was asked for. -/
def World.sound (w : World) (path : String) : Prop :=
  0 ≤ w.c_open path OFlag.O_WRONLY
  ∧ w.c_fstat (w.c_open path OFlag.O_WRONLY) = 0
  ∧ (∀ alignment size, w.c_posix_memalign alignment size = 0)
  ∧ (∀ ops fd, w.c_lseek ops fd 0 = 0)
  ∧ (∀ ops fd buf count, w.c_write ops fd buf count = count)
  ∧ (∀ ops fd, w.c_fsync ops fd = 0)

/-- The calls of one pass over a file of `fb` whole blocks of `bs` bytes and
`rem` further bytes when every call succeeds: the rewind, the writes of the
whole blocks, the write of the remainder, the flush. -/
def pass_ops (fd : Int) (buf : Option (List Byte)) (bs fb rem : Int) : List Event :=
  Event.c_lseek fd 0 0
    :: (List.replicate fb.toNat (Event.c_write fd buf bs bs)
        ++ [Event.c_write fd buf rem rem, Event.c_fsync fd 0])

/-- Whether the element is an argument without a flag. -/
def Item.is_positional : Item → Bool
  | Item.positional _ => true
  | _ => false

/-- Whether the element is one of the options `--help`, `--usage` and
`--version`, at which argp prints its text and ends the process with status
0. -/
def Item.is_builtin_exit : Item → Bool
  | Item.option key _ => decide (key = KEY_HELP ∨ key = OPT_USAGE ∨ key = KEY_VERSION)
  | Item.positional _ => false

/-- The value of `arguments.passes` after the options of a command line were
parsed, starting from `p`: every `--passes` option replaces it. -/
def final_passes : List Item → Int → Int
  | [], p => p
  | Item.option key arg :: rest, p => final_passes rest (if key = KEY_p then atoi arg else p)
  | Item.positional _ :: rest, p => final_passes rest p

/-- What a call asks of the target file, whatever it returned: a rewind, a
`write` of `count` bytes, or a flush. -/
inductive Step
  | seek
  | write (count : Int)
  | flush
  deriving DecidableEq, Repr

/-- The request of a call of `lseek`, `write` or `fsync`; `none` for the
other calls. -/
def Event.step : Event → Option Step
  | Event.c_lseek _ _ _ => some Step.seek
  | Event.c_write _ _ count _ => some (Step.write count)
  | Event.c_fsync _ _ => some Step.flush
  | _ => none

/-- The requests of one whole pass: the rewind, `fb` writes of `bs` bytes, one
write of `rem` bytes, the flush. -/
def pass_steps (bs fb rem : Int) : List Step :=
  Step.seek :: (List.replicate fb.toNat (Step.write bs) ++ [Step.write rem, Step.flush])

/-! ## Sample worlds -/

/-- A world in which every call succeeds and transfers all it was asked for,
for a file of `S` bytes on a file system with blocks of `B` bytes.  The target
is opened as descriptor 3 and the entropy device as descriptor 4. -/
def sound_world (S B : Int) : World where
  c_open := fun path _ => if path = "/dev/urandom" then 4 else 3
  c_fstat := fun _ => 0
  st_blksize := B
  st_size := S
  c_posix_memalign := fun _ _ => 0
  heap := fun _ => 170
  c_read := fun _ count => count
  entropy := fun k => (k * 37 + 11) % 256
  c_lseek := fun _ _ offset => offset
  c_write := fun _ _ _ count => count
  c_fsync := fun _ _ => 0
  c_unlink := fun _ => 0

/-- A world in which the entropy device delivers only 4000 of the 4096 bytes
asked for. -/
def short_read_world : World :=
  { sound_world 10000 4096 with c_read := fun _ _ => 4000 }

/-- A world in which `/dev/urandom` cannot be opened, for a file of `S`
bytes.  A `write` from the null pointer fails unless it is asked for no bytes. -/
def no_entropy_world (S : Int) : World :=
  { sound_world S 4096 with
    c_open := fun path _ => if path = "/dev/urandom" then -1 else 3
    c_write := fun _ _ buf count =>
      match buf with
      | none => if count = 0 then 0 else -1
      | some _ => count }

/-- A world in which `fstat` fails. -/
def no_stat_world : World :=
  { sound_world 10000 4096 with c_fstat := fun _ => -1 }

/-- A world in which the allocation fails with `ENOMEM`. -/
def no_memory_world : World :=
  { sound_world 10000 4096 with c_posix_memalign := fun _ _ => 12 }

/-- A world in which every `write` of a whole block transfers only half of
it. -/
def short_write_world : World :=
  { sound_world 10000 4096 with
    c_write := fun _ _ _ count => if count = 4096 then 2048 else count }

/-- A world in which the disk is full after one block: the first `write`
succeeds, every later one fails. -/
def disk_full_world : World :=
  { sound_world 10000 4096 with
    c_write := fun ops _ _ count => if (ops.filter Event.is_write).length = 0 then count else -1 }

/-! ## Basic facts -/

@[simp]
theorem State.log_ops (s : State) (e : Event) : (s.log e).ops = s.ops ++ [e] := rfl

@[simp]
theorem State.print_ops (s : State) (o : List Output) : (s.print o).ops = s.ops := rfl

@[simp]
theorem State.finish_ops (s : State) (r : Option Int) : (s.finish r).ops = s.ops := rfl

@[simp]
theorem State.finish_ret (s : State) (r : Option Int) : (s.finish r).ret = r := rfl

@[simp]
theorem print_error_ops (e : Int) (m : String) (s : State) :
    (print_error e m s).ops = s.ops := rfl

@[simp]
theorem print_verbose_ops (v : Int) (t : String) (s : State) :
    (print_verbose v t s).ops = s.ops := by
  unfold print_verbose; split <;> rfl

@[simp]
theorem print_error_verbose_ops (v e : Int) (m : String) (s : State) :
    (print_error_verbose v e m s).ops = s.ops := by
  unfold print_error_verbose; split <;> rfl

/-- The inner loop issues the same calls whatever the verbosity. -/
theorem write_blocks_verbose (w : World) (v v' fd : Int) (buf : Option (List Byte))
    (bs fb : Int) : ∀ (k : Nat) (j j' : Int) (s s' : State), s.ops = s'.ops →
      (write_blocks w v fd buf bs fb k j s).1 = (write_blocks w v' fd buf bs fb k j' s').1 ∧
      (write_blocks w v fd buf bs fb k j s).2.ops
        = (write_blocks w v' fd buf bs fb k j' s').2.ops := by
  intro k
  induction k with
  | zero => intro j j' s s' h; exact ⟨rfl, h⟩
  | succ k ih =>
    intro j j' s s' h
    simp only [write_blocks, print_verbose_ops, h]
    by_cases hr : w.c_write s'.ops fd buf bs < 1
    · simp [hr, h]
    · simp only [hr, if_false]
      exact ih _ _ _ _ (by simp [h])

/-- The outer loop issues the same calls whatever the verbosity. -/
theorem pass_loop_verbose (w : World) (v v' fd : Int) (buf : Option (List Byte))
    (bs fb rem passes : Int) : ∀ (k : Nat) (i i' : Int) (s s' : State), s.ops = s'.ops →
      (pass_loop w v fd buf bs fb rem passes k i s).1
        = (pass_loop w v' fd buf bs fb rem passes k i' s').1 ∧
      (pass_loop w v fd buf bs fb rem passes k i s).2.ops
        = (pass_loop w v' fd buf bs fb rem passes k i' s').2.ops := by
  intro k
  induction k with
  | zero => intro i i' s s' h; exact ⟨rfl, h⟩
  | succ k ih =>
    intro i i' s s' h
    simp only [pass_loop, print_verbose_ops, h]
    by_cases hr : w.c_lseek s'.ops fd 0 < 0
    · simp [hr, h]
    · simp only [hr, if_false]
      have hb := write_blocks_verbose w v v' fd buf bs fb fb.toNat 0 0
        ((print_verbose v "Rewinding file\n"
          (print_verbose v ("Starting pass " ++ toString (i + 1) ++ "/" ++ toString passes ++ "\n")
            s)).log (Event.c_lseek fd 0 (w.c_lseek s'.ops fd 0)))
        ((print_verbose v' "Rewinding file\n"
          (print_verbose v' ("Starting pass " ++ toString (i' + 1) ++ "/" ++ toString passes ++ "\n")
            s')).log (Event.c_lseek fd 0 (w.c_lseek s'.ops fd 0)))
        (by simp [h])
      revert hb
      generalize write_blocks w v fd buf bs fb fb.toNat 0 _ = x
      generalize write_blocks w v' fd buf bs fb fb.toNat 0 _ = y
      obtain ⟨xb, xs⟩ := x
      obtain ⟨yb, ys⟩ := y
      rintro ⟨h1, h2⟩
      simp only at h1 h2
      subst h1
      cases xb with
      | false => exact ⟨rfl, h2⟩
      | true =>
        simp only [print_verbose_ops, h2]
        by_cases hw : w.c_write ys.ops fd buf rem < 0
        · simp [hw, h2]
        · simp only [hw, if_false, State.log_ops, print_verbose_ops, h2]
          by_cases hf : w.c_fsync (ys.ops ++ [Event.c_write fd buf rem (w.c_write ys.ops fd buf rem)]) fd < 0
          · simp [hf, h2]
          · simp only [hf, if_false]
            exact ih _ _ _ _ (by simp [h2])

theorem overwrite_passes_verbose (w : World) (v v' fd : Int) (buf : Option (List Byte))
    (bs fb rem passes : Int) (s s' : State) (h : s.ops = s'.ops) :
    (overwrite_passes w v fd buf bs fb rem passes s).ops
        = (overwrite_passes w v' fd buf bs fb rem passes s').ops ∧
      (overwrite_passes w v fd buf bs fb rem passes s).ret
        = (overwrite_passes w v' fd buf bs fb rem passes s').ret := by
  unfold overwrite_passes
  have hb := pass_loop_verbose w v v' fd buf bs fb rem passes passes.toNat 0 0
    (print_verbose v "Starting overwrite\n" s) (print_verbose v' "Starting overwrite\n" s')
    (by simp [h])
  revert hb
  simp only []
  generalize pass_loop w v fd buf bs fb rem passes passes.toNat 0 _ = x
  generalize pass_loop w v' fd buf bs fb rem passes passes.toNat 0 _ = y
  obtain ⟨xb, xs⟩ := x
  obtain ⟨yb, ys⟩ := y
  rintro ⟨h1, h2⟩
  simp only at h1 h2
  subst h1
  cases xb with
  | false => exact ⟨h2, rfl⟩
  | true => simp [h2]

theorem random_block_length (w : World) (B n : Int) :
    (random_block w B n).length = B.toNat := by
  simp [random_block]

/-- Generation none iff -/
theorem generate_random_buffer_none_iff (w : World) (B : Int) (s : State) :
    (generate_random_buffer w B s).1 = none ↔
      (w.c_open "/dev/urandom" OFlag.O_RDONLY < 0 ∨ w.c_posix_memalign B B ≠ 0
        ∨ w.c_read (w.c_open "/dev/urandom" OFlag.O_RDONLY) B < 0) := by
  unfold generate_random_buffer
  simp only []
  split_ifs with h1 h2 h3 <;> simp_all

theorem argp_parse_spec : ∀ (items : List Item) (n : Nat) (a : arguments),
    (1 ≤ n → a.args.isSome = true) →
    match argp_parse items n a with
    | ParseEnd.done a' => a'.args.isSome = true ∧ a'.passes = final_passes items a.passes
    | ParseEnd.exit st =>
      st = argp_err_exit_status ∨ (st = 0 ∧ ∃ it ∈ items, it.is_builtin_exit = true)
    | ParseEnd.undefined => 1 < n + (items.filter Item.is_positional).length := by
  intro items
  induction items with
  | nil =>
    intro n a h
    unfold argp_parse parse_opt
    by_cases hn : n < 1
    · simp [hn, KEY_m, KEY_p, KEY_v, KEY_u, ARGP_KEY_ARG, ARGP_KEY_END]
    · simp [hn, KEY_m, KEY_p, KEY_v, KEY_u, ARGP_KEY_ARG, ARGP_KEY_END, final_passes]
      exact h (by omega)
  | cons it rest ih =>
    intro n a h
    have hlift : ∀ (m : Nat) (b : arguments) (x : Item) (q : Int),
        final_passes rest q = final_passes (x :: rest) b.passes →
        (m + (rest.filter Item.is_positional).length
          ≤ n + ((x :: rest).filter Item.is_positional).length) →
        (match argp_parse rest m b with
          | ParseEnd.done a' => a'.args.isSome = true ∧ a'.passes = final_passes rest q
          | ParseEnd.exit st =>
            st = argp_err_exit_status ∨ (st = 0 ∧ ∃ it ∈ rest, it.is_builtin_exit = true)
          | ParseEnd.undefined => 1 < m + (rest.filter Item.is_positional).length) →
        (match argp_parse rest m b with
          | ParseEnd.done a' =>
            a'.args.isSome = true ∧ a'.passes = final_passes (x :: rest) b.passes
          | ParseEnd.exit st =>
            st = argp_err_exit_status
              ∨ (st = 0 ∧ ∃ it ∈ x :: rest, it.is_builtin_exit = true)
          | ParseEnd.undefined => 1 < n + ((x :: rest).filter Item.is_positional).length) := by
      intro m b x q hq hlen
      cases argp_parse rest m b with
      | done a' =>
        intro hh
        exact ⟨hh.1, hh.2.trans hq⟩
      | exit st =>
        intro hh
        rcases hh with hh | ⟨h0, it, hit, hb⟩
        · exact Or.inl hh
        · exact Or.inr ⟨h0, it, List.mem_cons_of_mem _ hit, hb⟩
      | undefined =>
        intro hh
        simp only [] at hh ⊢
        omega
    cases it with
    | option key arg =>
      have hlen : n + (rest.filter Item.is_positional).length
          ≤ n + ((Item.option key arg :: rest).filter Item.is_positional).length := by
        simp [Item.is_positional]
      unfold argp_parse
      by_cases hk : key ∈ options
      · simp only [hk, if_true]
        simp only [options, List.mem_cons, List.mem_singleton, List.not_mem_nil, or_false] at hk
        rcases hk with hk | hk | hk | hk
        · subst hk
          have := hlift n { a with method := arg } (Item.option KEY_m arg) a.passes
            (by simp [final_passes, KEY_m, KEY_p]) hlen (ih n { a with method := arg } h)
          simpa [parse_opt, KEY_m, KEY_p, final_passes] using this
        · subst hk
          have := hlift n { a with passes := atoi arg } (Item.option KEY_p arg) (atoi arg)
            (by simp [final_passes]) hlen (ih n { a with passes := atoi arg } h)
          simpa [parse_opt, KEY_m, KEY_p, final_passes] using this
        · subst hk
          have := hlift n { a with verbose := 1 } (Item.option KEY_v arg) a.passes
            (by simp [final_passes, KEY_v, KEY_p]) hlen (ih n { a with verbose := 1 } h)
          simpa [parse_opt, KEY_m, KEY_p, KEY_v, final_passes] using this
        · subst hk
          have := hlift n { a with unlink := 1 } (Item.option KEY_u arg) a.passes
            (by simp [final_passes, KEY_u, KEY_p]) hlen (ih n { a with unlink := 1 } h)
          simpa [parse_opt, KEY_m, KEY_p, KEY_v, KEY_u, final_passes] using this
      · simp only [hk, if_false]
        by_cases hb : key = KEY_HELP ∨ key = OPT_USAGE ∨ key = KEY_VERSION
        · simp only [hb, if_true]
          exact Or.inr ⟨trivial, Item.option key arg, List.mem_cons_self _ _,
            by simp [Item.is_builtin_exit, hb]⟩
        · simp only [hb, if_false]
          by_cases hc : key = OPT_PROGNAME ∨ key = OPT_HANG
          · simp only [hc, if_true]
            have hkp : key ≠ KEY_p := by
              intro hkp
              exact hk (by simp [hkp, options])
            have := hlift n a (Item.option key arg) a.passes
              (by simp [final_passes, hkp]) hlen (ih n a h)
            exact this
          · simp only [hc, if_false]
            exact Or.inl trivial
    | positional arg =>
      unfold argp_parse parse_opt
      simp only [KEY_m, KEY_p, KEY_v, KEY_u, ARGP_KEY_ARG]
      by_cases h1 : n > 1
      · simp [h1]
      · by_cases h0 : n = 0
        · subst h0
          have := hlift 1 { a with args := some arg } (Item.positional arg) a.passes
            (by simp [final_passes]) (by simp [Item.is_positional]; omega)
            (ih 1 { a with args := some arg } (by simp))
          simpa using this
        · simp [h1, h0, Item.is_positional]
          omega

theorem final_passes_last (pre post : List Item) (arg : String) (p : Int)
    (hlast : ∀ a, Item.option KEY_p a ∉ post) :
    final_passes (pre ++ Item.option KEY_p arg :: post) p = atoi arg := by
  have hpost : ∀ (post : List Item) (q : Int), (∀ a, Item.option KEY_p a ∉ post) →
      final_passes post q = q := by
    intro post
    induction post with
    | nil => intro q _; rfl
    | cons it rest ih =>
      intro q h
      have hrest : ∀ a, Item.option KEY_p a ∉ rest := fun a ha => h a (List.mem_cons_of_mem _ ha)
      cases it with
      | option key a =>
        have hk : key ≠ KEY_p := by
          intro hk
          exact h a (by simp [hk])
        simp [final_passes, hk, ih q hrest]
      | positional a => simp [final_passes, ih q hrest]
  induction pre generalizing p with
  | nil => simp [final_passes, hpost post _ hlast]
  | cons it rest ih =>
    cases it with
    | option key a => simp [final_passes, ih]
    | positional a => simp [final_passes, ih]

theorem toInt32_of_int (x : Int) (h0 : INT_MIN ≤ x) (h1 : x ≤ INT_MAX) : toInt32 x = x := by
  unfold INT_MIN at h0
  unfold INT_MAX at h1
  unfold toInt32
  omega

/-- Sizes that fit an `int` are split into whole blocks and a remainder. -/
theorem sizes_of_int (S B : Int) (hS : 0 ≤ S) (hS' : S ≤ INT_MAX) (hB : 0 < B)
    (hB' : B ≤ INT_MAX) :
    c_div (toInt32 S) (toInt32 B) = some (S / B)
      ∧ c_mod (toInt32 S) (toInt32 B) = some (S % B) := by
  have h1 : toInt32 S = S := toInt32_of_int S (by unfold INT_MIN; omega) hS'
  have h2 : toInt32 B = B := toInt32_of_int B (by unfold INT_MIN; omega) hB'
  have hB0 : B ≠ 0 := by omega
  have hB1 : B ≠ -1 := by omega
  rw [h1, h2]
  unfold c_div c_mod
  simp [hB0, hB1, Int.tdiv_eq_ediv hS (le_of_lt hB), Int.tmod_eq_emod hS (le_of_lt hB)]

/-- Counting through the inner loop. -/
theorem write_blocks_countP (w : World) (v fd : Int) (buf : Option (List Byte)) (bs fb : Int)
    (p : Event → Bool) (pw : Bool) (hp : ∀ r, p (Event.c_write fd buf bs r) = pw) :
    ∀ (k : Nat) (j : Int) (s : State),
      (write_blocks w v fd buf bs fb k j s).1 = true →
      (write_blocks w v fd buf bs fb k j s).2.ops.countP p = s.ops.countP p + k * pw.toNat := by
  intro k
  induction k with
  | zero => intro j s _; simp [write_blocks]
  | succ k ih =>
    intro j s
    simp only [write_blocks, print_verbose_ops]
    by_cases hr : w.c_write s.ops fd buf bs < 1
    · simp [hr]
    · simp only [hr, if_false]
      intro h
      rw [ih _ _ h]
      simp only [State.log_ops, print_verbose_ops, List.countP_append, List.countP_cons,
        List.countP_nil, hp]
      cases pw
      · simp
      · simp
        omega

/-- Counting through the outer loop. -/
theorem pass_loop_countP (w : World) (v fd : Int) (buf : Option (List Byte))
    (bs fb rem passes : Int) (p : Event → Bool) (pl pw pr pf : Bool)
    (hl : ∀ r, p (Event.c_lseek fd 0 r) = pl)
    (hw : ∀ r, p (Event.c_write fd buf bs r) = pw)
    (hr : ∀ r, p (Event.c_write fd buf rem r) = pr)
    (hf : ∀ r, p (Event.c_fsync fd r) = pf) :
    ∀ (k : Nat) (i : Int) (s : State),
      (pass_loop w v fd buf bs fb rem passes k i s).1 = true →
      (pass_loop w v fd buf bs fb rem passes k i s).2.ops.countP p
        = s.ops.countP p + k * (pl.toNat + fb.toNat * pw.toNat + pr.toNat + pf.toNat) := by
  intro k
  induction k with
  | zero => intro i s _; simp [pass_loop]
  | succ k ih =>
    intro i s
    simp only [pass_loop, print_verbose_ops]
    by_cases h1 : w.c_lseek s.ops fd 0 < 0
    · simp [h1]
    · simp only [h1, if_false]
      have hb := write_blocks_countP w v fd buf bs fb p pw hw fb.toNat 0
        ((print_verbose v "Rewinding file\n"
          (print_verbose v
            ("Starting pass " ++ toString (i + 1) ++ "/" ++ toString passes ++ "\n") s)).log
          (Event.c_lseek fd 0 (w.c_lseek s.ops fd 0)))
      revert hb
      generalize write_blocks w v fd buf bs fb fb.toNat 0 _ = x
      obtain ⟨xb, xs⟩ := x
      cases xb with
      | false => simp
      | true =>
        intro hb
        have hb := hb rfl
        simp only [State.log_ops, print_verbose_ops, List.countP_append, List.countP_cons,
          List.countP_nil, hl] at hb
        simp only [print_verbose_ops]
        by_cases h2 : w.c_write xs.ops fd buf rem < 0
        · simp [h2]
        · simp only [h2, if_false, State.log_ops, print_verbose_ops]
          by_cases h3 : w.c_fsync (xs.ops ++ [Event.c_write fd buf rem (w.c_write xs.ops fd buf rem)]) fd < 0
          · simp [h3]
          · simp only [h3, if_false]
            intro h
            rw [ih _ _ h]
            simp only [State.log_ops, print_verbose_ops, List.countP_append, List.countP_cons,
              List.countP_nil, hr, hf, hb]
            cases pl <;> cases pr <;> cases pf <;> simp <;> ring

/-- A predicate that holds of calls of `lseek`, `write` and `fsync` only is
false of every other call. -/
theorem quiet_calls (p : Event → Bool)
    (hq : ∀ e : Event, e.is_lseek = false → e.is_write = false → e.is_fsync = false →
      p e = false) :
    (∀ a b c, p (Event.c_open a b c) = false) ∧ (∀ a b, p (Event.c_fstat a b) = false)
    ∧ (∀ a b c, p (Event.c_posix_memalign a b c) = false)
    ∧ (∀ a b c, p (Event.c_read a b c) = false)
    ∧ (∀ a, p (Event.c_free a) = false) ∧ (∀ a, p (Event.c_close a) = false) :=
  ⟨fun _ _ _ => hq _ rfl rfl rfl, fun _ _ => hq _ rfl rfl rfl, fun _ _ _ => hq _ rfl rfl rfl,
   fun _ _ _ => hq _ rfl rfl rfl, fun _ => hq _ rfl rfl rfl, fun _ => hq _ rfl rfl rfl⟩

theorem generate_buffer_countP (w : World) (bs : Int) (val : Byte) (s : State)
    (p : Event → Bool)
    (hq : ∀ e : Event, e.is_lseek = false → e.is_write = false → e.is_fsync = false →
      p e = false) :
    (generate_buffer w bs val s).2.ops.countP p = s.ops.countP p := by
  obtain ⟨_, _, h3, _, _, _⟩ := quiet_calls p hq
  unfold generate_buffer
  simp only []
  split_ifs <;> simp [List.countP_append, h3]

theorem generate_random_buffer_countP (w : World) (bs : Int) (s : State)
    (p : Event → Bool)
    (hq : ∀ e : Event, e.is_lseek = false → e.is_write = false → e.is_fsync = false →
      p e = false) :
    (generate_random_buffer w bs s).2.ops.countP p = s.ops.countP p := by
  obtain ⟨h1, _, h3, h4, _, h6⟩ := quiet_calls p hq
  unfold generate_random_buffer
  simp only []
  split_ifs <;> simp [List.countP_append, h1, h3, h4, h6]

theorem overwrite_passes_countP (w : World) (v fd : Int) (buf : Option (List Byte))
    (bs fb rem passes : Int) (p : Event → Bool) (pl pw pr pf : Bool)
    (hq : ∀ e : Event, e.is_lseek = false → e.is_write = false → e.is_fsync = false →
      p e = false)
    (hl : ∀ r, p (Event.c_lseek fd 0 r) = pl)
    (hw : ∀ r, p (Event.c_write fd buf bs r) = pw)
    (hr : ∀ r, p (Event.c_write fd buf rem r) = pr)
    (hf : ∀ r, p (Event.c_fsync fd r) = pf) (s : State)
    (hret : (overwrite_passes w v fd buf bs fb rem passes s).ret = some 0) :
    (overwrite_passes w v fd buf bs fb rem passes s).ops.countP p
      = s.ops.countP p
        + passes.toNat * (pl.toNat + fb.toNat * pw.toNat + pr.toNat + pf.toNat)
        + pf.toNat := by
  obtain ⟨_, _, _, _, h5, h6⟩ := quiet_calls p hq
  revert hret
  unfold overwrite_passes
  simp only []
  have hb := pass_loop_countP w v fd buf bs fb rem passes p pl pw pr pf hl hw hr hf
    passes.toNat 0 (print_verbose v "Starting overwrite\n" s)
  revert hb
  generalize pass_loop w v fd buf bs fb rem passes passes.toNat 0 _ = x
  obtain ⟨xb, xs⟩ := x
  cases xb with
  | false => simp
  | true =>
    intro hb _
    have hb := hb rfl
    simp only [print_verbose_ops] at hb
    simp only [State.finish_ops, State.log_ops, print_verbose_ops, List.countP_append,
      List.countP_cons, List.countP_nil, hb, h5, h6, hf]
    cases pf <;> simp

/-- The run of `overwrite` behind a successful `open` and `fstat`, with the
division defined. -/
theorem overwrite_eq (w : World) (path method : String) (passes verbose fb rem : Int)
    (hfd : 0 ≤ w.c_open path OFlag.O_WRONLY)
    (hst : 0 ≤ w.c_fstat (w.c_open path OFlag.O_WRONLY))
    (hd : c_div (toInt32 w.st_size) (toInt32 w.st_blksize) = some fb)
    (hm : c_mod (toInt32 w.st_size) (toInt32 w.st_blksize) = some rem) :
    overwrite w path method passes verbose =
      let fd := w.c_open path OFlag.O_WRONLY
      let s : State :=
        { ops := [Event.c_open path OFlag.O_WRONLY fd, Event.c_fstat fd (w.c_fstat fd)],
          out := [] }
      let bs := toInt32 w.st_blksize
      if method = METHOD_ZERO then
        overwrite_passes w verbose fd (generate_buffer w bs 0 s).1 bs fb rem passes
          (generate_buffer w bs 0 s).2
      else if method = METHOD_ONE then
        overwrite_passes w verbose fd (generate_buffer w bs 255 s).1 bs fb rem passes
          (generate_buffer w bs 255 s).2
      else if method = METHOD_RAND then
        overwrite_passes w verbose fd (generate_random_buffer w bs s).1 bs fb rem passes
          (generate_random_buffer w bs s).2
      else
        (print_error_verbose verbose 0 "Given method does not exist" s).finish (some (-1)) := by
  unfold overwrite
  simp only [not_lt.mpr hfd, not_lt.mpr hst, if_false, hd, hm]
  rfl

/-- Counting through a successful run of `overwrite`. -/
theorem overwrite_countP (w : World) (path method : String) (passes verbose fb rem : Int)
    (p : Event → Bool) (pl pw pr pf : Bool)
    (hd : c_div (toInt32 w.st_size) (toInt32 w.st_blksize) = some fb)
    (hm : c_mod (toInt32 w.st_size) (toInt32 w.st_blksize) = some rem)
    (hq : ∀ e : Event, e.is_lseek = false → e.is_write = false → e.is_fsync = false →
      p e = false)
    (hl : ∀ fd r, p (Event.c_lseek fd 0 r) = pl)
    (hw : ∀ fd buf r, p (Event.c_write fd buf (toInt32 w.st_blksize) r) = pw)
    (hr : ∀ fd buf r, p (Event.c_write fd buf rem r) = pr)
    (hf : ∀ fd r, p (Event.c_fsync fd r) = pf)
    (hret : (overwrite w path method passes verbose).ret = some 0) :
    (overwrite w path method passes verbose).ops.countP p
      = passes.toNat * (pl.toNat + fb.toNat * pw.toNat + pr.toNat + pf.toNat) + pf.toNat := by
  obtain ⟨h1, h2, _, _, _, _⟩ := quiet_calls p hq
  by_cases hfd : 0 ≤ w.c_open path OFlag.O_WRONLY
  swap
  · exfalso
    revert hret
    unfold overwrite
    simp [not_le.mp hfd]
  by_cases hst : 0 ≤ w.c_fstat (w.c_open path OFlag.O_WRONLY)
  swap
  · exfalso
    revert hret
    unfold overwrite
    simp [not_lt.mpr hfd, not_le.mp hst]
  rw [overwrite_eq w path method passes verbose fb rem hfd hst hd hm] at hret ⊢
  simp only [] at hret ⊢
  split_ifs at hret ⊢
  · rw [overwrite_passes_countP w verbose _ _ _ fb rem passes p pl pw pr pf hq (hl _) (hw _ _)
      (hr _ _) (hf _) _ hret, generate_buffer_countP w _ _ _ p hq]
    simp [h1, h2]
  · rw [overwrite_passes_countP w verbose _ _ _ fb rem passes p pl pw pr pf hq (hl _) (hw _ _)
      (hr _ _) (hf _) _ hret, generate_buffer_countP w _ _ _ p hq]
    simp [h1, h2]
  · rw [overwrite_passes_countP w verbose _ _ _ fb rem passes p pl pw pr pf hq (hl _) (hw _ _)
      (hr _ _) (hf _) _ hret, generate_random_buffer_countP w _ _ p hq]
    simp [h1, h2]
  · simp at hret

theorem sound_world_sound (S B : Int) (path : String) : (sound_world S B).sound path := by
  refine ⟨?_, rfl, fun _ _ => rfl, fun _ _ => rfl, fun _ _ _ _ => rfl, fun _ _ => rfl⟩
  show (0 : Int) ≤ if path = "/dev/urandom" then 4 else 3
  split <;> decide

/-- The inner loop when every `write` transfers the whole block. -/
theorem write_blocks_sound (w : World) (v fd : Int) (buf : Option (List Byte)) (bs fb : Int)
    (hbs : 1 ≤ bs) (hwrite : ∀ ops fd buf count, w.c_write ops fd buf count = count) :
    ∀ (k : Nat) (j : Int) (s : State),
      (write_blocks w v fd buf bs fb k j s).1 = true
      ∧ (write_blocks w v fd buf bs fb k j s).2.ops
          = s.ops ++ List.replicate k (Event.c_write fd buf bs bs) := by
  intro k
  induction k with
  | zero => intro j s; simp [write_blocks]
  | succ k ih =>
    intro j s
    simp only [write_blocks, hwrite, not_lt.mpr hbs, if_false]
    refine ⟨(ih _ _).1, ?_⟩
    rw [(ih _ _).2]
    simp [List.replicate_succ]

/-- The outer loop when every call succeeds. -/
theorem pass_loop_sound (w : World) (v fd : Int) (buf : Option (List Byte))
    (bs fb rem passes : Int) (hbs : 1 ≤ bs) (hrem : 0 ≤ rem)
    (hseek : ∀ ops fd, w.c_lseek ops fd 0 = 0)
    (hwrite : ∀ ops fd buf count, w.c_write ops fd buf count = count)
    (hsync : ∀ ops fd, w.c_fsync ops fd = 0) :
    ∀ (k : Nat) (i : Int) (s : State),
      (pass_loop w v fd buf bs fb rem passes k i s).1 = true
      ∧ (pass_loop w v fd buf bs fb rem passes k i s).2.ops
          = s.ops ++ (List.replicate k (pass_ops fd buf bs fb rem)).flatten := by
  intro k
  induction k with
  | zero => intro i s; simp [pass_loop]
  | succ k ih =>
    intro i s
    simp only [pass_loop, hseek, lt_irrefl, if_false]
    have hb := write_blocks_sound w v fd buf bs fb hbs hwrite fb.toNat 0
        ((print_verbose v "Rewinding file\n"
          (print_verbose v
            ("Starting pass " ++ toString (i + 1) ++ "/" ++ toString passes ++ "\n") s)).log
          (Event.c_lseek fd 0 0))
    revert hb
    generalize write_blocks w v fd buf bs fb fb.toNat 0 _ = x
    obtain ⟨xb, xs⟩ := x
    rintro ⟨h1, h2⟩
    simp only at h1 h2
    subst h1
    simp only [hwrite, hsync, not_lt.mpr hrem, lt_irrefl, if_false]
    refine ⟨(ih _ _).1, ?_⟩
    rw [(ih _ _).2]
    simp [h2, List.replicate_succ, pass_ops]

/-- The passes and the release when every call succeeds. -/
theorem overwrite_passes_sound (w : World) (v fd : Int) (buf : Option (List Byte))
    (bs fb rem passes : Int) (hbs : 1 ≤ bs) (hrem : 0 ≤ rem)
    (hseek : ∀ ops fd, w.c_lseek ops fd 0 = 0)
    (hwrite : ∀ ops fd buf count, w.c_write ops fd buf count = count)
    (hsync : ∀ ops fd, w.c_fsync ops fd = 0) (s : State) :
    (overwrite_passes w v fd buf bs fb rem passes s).ret = some 0
    ∧ (overwrite_passes w v fd buf bs fb rem passes s).ops
        = s.ops ++ (List.replicate passes.toNat (pass_ops fd buf bs fb rem)).flatten
          ++ [Event.c_free buf, Event.c_fsync fd 0, Event.c_close fd] := by
  unfold overwrite_passes
  simp only []
  have hb := pass_loop_sound w v fd buf bs fb rem passes hbs hrem hseek hwrite hsync
    passes.toNat 0 (print_verbose v "Starting overwrite\n" s)
  revert hb
  generalize pass_loop w v fd buf bs fb rem passes passes.toNat 0 _ = x
  obtain ⟨xb, xs⟩ := x
  rintro ⟨h1, h2⟩
  simp only at h1 h2
  subst h1
  simp [h2, hsync]

theorem flatten_replicate_replicate (k n : Nat) (x : Byte) :
    (List.replicate k (List.replicate n x)).flatten = List.replicate (k * n) x := by
  induction k with
  | zero => simp
  | succ k ih =>
    rw [List.replicate_succ, List.flatten_cons, ih, List.append_replicate_replicate]
    congr 1
    ring

/-- The bytes one pass puts into the file when every call succeeds. -/
theorem written_pass_ops (fd : Int) (S B : Int) (fill : Byte) (hS : 0 ≤ S) (hB : 0 < B) :
    written (pass_ops fd (some (List.replicate B.toNat fill)) B (S / B) (S % B))
      = List.replicate S.toNat fill := by
  have hrem0 : 0 ≤ S % B := Int.emod_nonneg S (by omega)
  have hremB : S % B < B := Int.emod_lt_of_pos S hB
  have hfb : 0 ≤ S / B := Int.ediv_nonneg hS (le_of_lt hB)
  have hsplit : B * (S / B) + S % B = S := Int.ediv_add_emod S B
  have hmin : min (B.toNat) (B.toNat) = B.toNat := min_self _
  have hmin2 : min (S % B).toNat B.toNat = (S % B).toNat := by
    apply min_eq_left
    omega
  unfold written pass_ops
  simp only [List.map_cons, List.map_append, List.map_replicate, List.map_nil, Event.data,
    List.take_replicate, List.flatten_cons, List.flatten_append, flatten_replicate_replicate,
    List.flatten_nil, List.nil_append, List.append_nil, hmin, hmin2,
    List.append_replicate_replicate]
  congr 1
  have h1 : ((S / B).toNat : Int) = S / B := Int.toNat_of_nonneg hfb
  have h2 : (B.toNat : Int) = B := Int.toNat_of_nonneg (le_of_lt hB)
  have h3 : ((S % B).toNat : Int) = S % B := Int.toNat_of_nonneg hrem0
  have h4 : (S.toNat : Int) = S := Int.toNat_of_nonneg hS
  have : (((S / B).toNat * B.toNat + (S % B).toNat : Nat) : Int) = (S.toNat : Int) := by
    push_cast
    rw [h1, h2, h3, h4]
    linarith
  exact_mod_cast this

/-- A run with a valid method succeeds when every call succeeds. -/
theorem overwrite_sound_ret (w : World) (path method : String) (passes verbose S B : Int)
    (hS : 0 ≤ S) (hS' : S ≤ INT_MAX) (hB : 0 < B) (hB' : B ≤ INT_MAX)
    (hsize : w.st_size = S) (hblk : w.st_blksize = B)
    (hmethod : method = "zero" ∨ method = "one" ∨ method = "rand")
    (hsound : w.sound path) :
    (overwrite w path method passes verbose).ret = some 0 := by
  obtain ⟨hfd, hst, _, hseek, hwrite, hsync⟩ := hsound
  obtain ⟨hd, hm⟩ := sizes_of_int S B hS hS' hB hB'
  have hbs : toInt32 B = B := toInt32_of_int B (by unfold INT_MIN; omega) hB'
  have hrem0 : 0 ≤ S % B := Int.emod_nonneg S (by omega)
  rw [← hsize, ← hblk] at hd hm
  rw [overwrite_eq w path method passes verbose _ _ hfd (by omega) hd hm]
  simp only []
  rw [hblk, hbs, hsize]
  split_ifs with h1 h2 h3
  · exact (overwrite_passes_sound w verbose _ _ B _ _ passes (by omega) hrem0 hseek hwrite
      hsync _).1
  · exact (overwrite_passes_sound w verbose _ _ B _ _ passes (by omega) hrem0 hseek hwrite
      hsync _).1
  · exact (overwrite_passes_sound w verbose _ _ B _ _ passes (by omega) hrem0 hseek hwrite
      hsync _).1
  · exfalso
    rcases hmethod with h | h | h
    · exact h1 h
    · exact h2 h
    · exact h3 h

/-- The run of a fixed method on sizes that fit an `int` when every call succeeds. -/
theorem overwrite_fixed_sound (w : World) (path method : String) (passes verbose S B : Int)
    (fill : Byte)
    (hS : 0 ≤ S) (hS' : S ≤ INT_MAX) (hB : 0 < B) (hB' : B ≤ INT_MAX)
    (hsize : w.st_size = S) (hblk : w.st_blksize = B)
    (hmethod : (method = "zero" ∧ fill = 0) ∨ (method = "one" ∧ fill = 255))
    (hsound : w.sound path) :
    (overwrite w path method passes verbose).ret = some 0
    ∧ (overwrite w path method passes verbose).ops
        = [Event.c_open path OFlag.O_WRONLY (w.c_open path OFlag.O_WRONLY),
           Event.c_fstat (w.c_open path OFlag.O_WRONLY) 0,
           Event.c_posix_memalign B B 0]
          ++ (List.replicate passes.toNat
                (pass_ops (w.c_open path OFlag.O_WRONLY) (some (List.replicate B.toNat fill))
                  B (S / B) (S % B))).flatten
          ++ [Event.c_free (some (List.replicate B.toNat fill)),
              Event.c_fsync (w.c_open path OFlag.O_WRONLY) 0,
              Event.c_close (w.c_open path OFlag.O_WRONLY)]
    ∧ written (pass_ops (w.c_open path OFlag.O_WRONLY) (some (List.replicate B.toNat fill))
          B (S / B) (S % B)) = List.replicate S.toNat fill := by
  refine ⟨?_, ?_, written_pass_ops _ S B fill hS hB⟩
  · apply overwrite_sound_ret w path method passes verbose S B hS hS' hB hB' hsize hblk _ hsound
    rcases hmethod with h | h
    · exact Or.inl h.1
    · exact Or.inr (Or.inl h.1)
  · obtain ⟨hfd, hst, hmem, hseek, hwrite, hsync⟩ := hsound
    obtain ⟨hd, hm⟩ := sizes_of_int S B hS hS' hB hB'
    have hbs : toInt32 B = B := toInt32_of_int B (by unfold INT_MIN; omega) hB'
    have hrem0 : 0 ≤ S % B := Int.emod_nonneg S (by omega)
    rw [← hsize, ← hblk] at hd hm
    rw [overwrite_eq w path method passes verbose _ _ hfd (by omega) hd hm]
    simp only []
    rw [hblk, hbs, hsize, hst]
    rcases hmethod with ⟨h1, h2⟩ | ⟨h1, h2⟩
    · subst h1 h2
      rw [if_pos (by rfl)]
      rw [(overwrite_passes_sound w verbose _ _ B _ _ passes (by omega) hrem0 hseek hwrite
        hsync _).2]
      simp [generate_buffer, hmem]
    · subst h1 h2
      rw [if_neg (by decide), if_pos (by rfl)]
      rw [(overwrite_passes_sound w verbose _ _ B _ _ passes (by omega) hrem0 hseek hwrite
        hsync _).2]
      simp [generate_buffer, hmem]

theorem tmod_ne_self (a b : Int) (hb : b ≠ 0) : a.tmod b ≠ b := by
  intro h
  have h1 := Int.tmod_add_tdiv a b
  have hdvd : b ∣ a := ⟨a.tdiv b + 1, by rw [h] at h1; linarith⟩
  have := Int.tmod_eq_zero_of_dvd hdvd
  omega

theorem c_mod_ne (a b rem : Int) (h : c_mod a b = some rem) : rem ≠ b := by
  unfold c_mod at h
  split_ifs at h with h1 h2
  simp only [Option.some.injEq] at h
  rw [← h]
  exact tmod_ne_self a b h1

theorem clean_append (bs : Int) (ops : List Event) (e : Event) (h : clean bs ops)
    (he : e.failed_write bs = false) : clean bs (ops ++ [e]) := by
  intro x hx
  rcases List.mem_append.mp hx with hx | hx
  · exact h x hx
  · rw [List.mem_singleton.mp hx]; exact he

/-- A failed `write` ends the inner loop. -/
theorem write_blocks_failed (w : World) (v fd : Int) (buf : Option (List Byte)) (bs fb : Int) :
    ∀ (k : Nat) (j : Int) (s : State), clean bs s.ops →
      ((write_blocks w v fd buf bs fb k j s).1 = true
        ∧ clean bs (write_blocks w v fd buf bs fb k j s).2.ops)
      ∨ ((write_blocks w v fd buf bs fb k j s).1 = false
        ∧ ∃ t e, (write_blocks w v fd buf bs fb k j s).2.ops = t ++ [e] ∧ clean bs t) := by
  intro k
  induction k with
  | zero => intro j s h; exact Or.inl ⟨rfl, h⟩
  | succ k ih =>
    intro j s h
    simp only [write_blocks, print_verbose_ops]
    by_cases hr : w.c_write s.ops fd buf bs < 1
    · right
      simp only [hr, if_true, print_error_verbose_ops, State.log_ops, print_verbose_ops]
      exact ⟨trivial, _, _, rfl, h⟩
    · simp only [hr, if_false]
      apply ih
      simp only [State.log_ops, print_verbose_ops]
      apply clean_append _ _ _ h
      have : ¬ w.c_write s.ops fd buf bs < 0 := by omega
      simp [Event.failed_write, hr, this]

/-- A failed `write` ends the outer loop. -/
theorem pass_loop_failed (w : World) (v fd : Int) (buf : Option (List Byte))
    (bs fb rem passes : Int) (hrem : rem ≠ bs) :
    ∀ (k : Nat) (i : Int) (s : State), clean bs s.ops →
      ((pass_loop w v fd buf bs fb rem passes k i s).1 = true
        ∧ clean bs (pass_loop w v fd buf bs fb rem passes k i s).2.ops)
      ∨ ((pass_loop w v fd buf bs fb rem passes k i s).1 = false
        ∧ ∃ t e, (pass_loop w v fd buf bs fb rem passes k i s).2.ops = t ++ [e]
            ∧ clean bs t) := by
  intro k
  induction k with
  | zero => intro i s h; exact Or.inl ⟨rfl, h⟩
  | succ k ih =>
    intro i s h
    simp only [pass_loop, print_verbose_ops]
    by_cases h1 : w.c_lseek s.ops fd 0 < 0
    · right
      simp only [h1, if_true, print_error_verbose_ops, State.log_ops, print_verbose_ops]
      exact ⟨trivial, _, _, rfl, h⟩
    · simp only [h1, if_false]
      have hb := write_blocks_failed w v fd buf bs fb fb.toNat 0
        ((print_verbose v "Rewinding file\n"
          (print_verbose v
            ("Starting pass " ++ toString (i + 1) ++ "/" ++ toString passes ++ "\n") s)).log
          (Event.c_lseek fd 0 (w.c_lseek s.ops fd 0)))
        (by
          simp only [State.log_ops, print_verbose_ops]
          exact clean_append _ _ _ h rfl)
      revert hb
      generalize write_blocks w v fd buf bs fb fb.toNat 0 _ = x
      obtain ⟨xb, xs⟩ := x
      cases xb with
      | false =>
        intro hb
        rcases hb with ⟨hb, _⟩ | ⟨_, hb⟩
        · simp at hb
        · exact Or.inr ⟨rfl, hb⟩
      | true =>
        intro hb
        rcases hb with ⟨_, hb⟩ | ⟨hb, _⟩
        swap
        · simp at hb
        simp only at hb
        simp only [print_verbose_ops]
        by_cases h2 : w.c_write xs.ops fd buf rem < 0
        · right
          simp only [h2, if_true, print_error_verbose_ops, State.log_ops, print_verbose_ops]
          exact ⟨trivial, _, _, rfl, hb⟩
        · simp only [h2, if_false, State.log_ops, print_verbose_ops]
          have hc : clean bs (xs.ops ++ [Event.c_write fd buf rem (w.c_write xs.ops fd buf rem)]) := by
            apply clean_append _ _ _ hb
            simp [Event.failed_write, h2, hrem]
          by_cases h3 : w.c_fsync (xs.ops ++ [Event.c_write fd buf rem (w.c_write xs.ops fd buf rem)]) fd < 0
          · right
            simp only [h3, if_true, print_error_verbose_ops, State.log_ops, print_verbose_ops]
            exact ⟨trivial, _, _, rfl, hc⟩
          · simp only [h3, if_false]
            apply ih
            simp only [State.log_ops, print_verbose_ops]
            exact clean_append _ _ _ hc rfl

theorem last_of_append_eq (t pre post : List Event) (e e' : Event)
    (h : t ++ [e'] = pre ++ e :: post) : e ∈ t ∨ post = [] := by
  induction t generalizing pre with
  | nil =>
    cases pre with
    | nil =>
      simp only [List.nil_append, List.cons.injEq] at h
      exact Or.inr h.2.symm
    | cons p ps =>
      simp at h
  | cons x xs ih =>
    cases pre with
    | nil =>
      simp only [List.nil_append, List.cons_append, List.cons.injEq] at h
      left
      rw [h.1]
      exact List.mem_cons_self _ _
    | cons p ps =>
      simp only [List.cons_append, List.cons.injEq] at h
      rcases ih ps h.2 with h' | h'
      · exact Or.inl (List.mem_cons_of_mem _ h')
      · exact Or.inr h'

theorem generate_buffer_clean (w : World) (bs sz : Int) (val : Byte) (s : State)
    (h : clean bs s.ops) : clean bs (generate_buffer w sz val s).2.ops := by
  unfold generate_buffer
  simp only []
  split_ifs <;> exact clean_append _ _ _ h rfl

theorem generate_random_buffer_clean (w : World) (bs sz : Int) (s : State)
    (h : clean bs s.ops) : clean bs (generate_random_buffer w sz s).2.ops := by
  unfold generate_random_buffer
  simp only []
  split_ifs
  · exact clean_append _ _ _ h rfl
  · exact clean_append _ _ _ (clean_append _ _ _ h rfl) rfl
  · exact clean_append _ _ _ (clean_append _ _ _ (clean_append _ _ _ h rfl) rfl) rfl
  · exact clean_append _ _ _
      (clean_append _ _ _ (clean_append _ _ _ (clean_append _ _ _ h rfl) rfl) rfl) rfl

/-- A failed `write` ends the passes with `return -1`. -/
theorem overwrite_passes_failed (w : World) (v fd : Int) (buf : Option (List Byte))
    (bs fb rem passes : Int) (hrem : rem ≠ bs) (s : State) (h : clean bs s.ops) :
    clean bs (overwrite_passes w v fd buf bs fb rem passes s).ops
    ∨ ((overwrite_passes w v fd buf bs fb rem passes s).ret = some (-1)
      ∧ ∃ t e, (overwrite_passes w v fd buf bs fb rem passes s).ops = t ++ [e]
          ∧ clean bs t) := by
  unfold overwrite_passes
  simp only []
  have hb := pass_loop_failed w v fd buf bs fb rem passes hrem passes.toNat 0
    (print_verbose v "Starting overwrite\n" s) (by simpa using h)
  revert hb
  generalize pass_loop w v fd buf bs fb rem passes passes.toNat 0 _ = x
  obtain ⟨xb, xs⟩ := x
  cases xb with
  | false =>
    intro hb
    rcases hb with ⟨hb, _⟩ | ⟨_, hb⟩
    · simp at hb
    · exact Or.inr ⟨rfl, hb⟩
  | true =>
    intro hb
    rcases hb with ⟨_, hb⟩ | ⟨hb, _⟩
    swap
    · simp at hb
    left
    simp only [State.finish_ops, State.log_ops, print_verbose_ops]
    exact clean_append _ _ _ (clean_append _ _ _ (clean_append _ _ _ hb rfl) rfl) rfl

/-- A failed `write` is the last call of a run, and the run returns `-1`. -/
theorem overwrite_failed (w : World) (path method : String) (passes verbose : Int) :
    clean (toInt32 w.st_blksize) (overwrite w path method passes verbose).ops
    ∨ ((overwrite w path method passes verbose).ret = some (-1)
      ∧ ∃ t e, (overwrite w path method passes verbose).ops = t ++ [e]
          ∧ clean (toInt32 w.st_blksize) t) := by
  have h0 : clean (toInt32 w.st_blksize) ([] : List Event) := by
    intro e he; simp at he
  by_cases hfd : 0 ≤ w.c_open path OFlag.O_WRONLY
  swap
  · left
    unfold overwrite
    simp only [not_le.mp hfd, if_true, State.finish_ops, print_error_verbose_ops,
      State.log_ops]
    intro e he
    simp only [List.nil_append, List.mem_singleton] at he
    rw [he]
    rfl
  by_cases hst : 0 ≤ w.c_fstat (w.c_open path OFlag.O_WRONLY)
  swap
  · left
    unfold overwrite
    simp only [not_lt.mpr hfd, not_le.mp hst, if_true, if_false, State.finish_ops,
      print_error_verbose_ops, State.log_ops]
    intro e he
    simp only [List.nil_append, List.cons_append, List.mem_cons, List.mem_singleton,
      List.not_mem_nil, or_false] at he
    rcases he with rfl | rfl <;> rfl
  have h2 : clean (toInt32 w.st_blksize)
      [Event.c_open path OFlag.O_WRONLY (w.c_open path OFlag.O_WRONLY),
        Event.c_fstat (w.c_open path OFlag.O_WRONLY)
          (w.c_fstat (w.c_open path OFlag.O_WRONLY))] := by
    intro e he
    simp only [List.mem_cons, List.mem_singleton, List.not_mem_nil, or_false] at he
    rcases he with rfl | rfl <;> rfl
  cases hd : c_div (toInt32 w.st_size) (toInt32 w.st_blksize) with
  | none =>
    left
    unfold overwrite
    simp only [not_lt.mpr hfd, not_lt.mpr hst, if_false, hd]
    exact h2
  | some fb =>
    cases hm : c_mod (toInt32 w.st_size) (toInt32 w.st_blksize) with
    | none =>
      left
      unfold overwrite
      simp only [not_lt.mpr hfd, not_lt.mpr hst, if_false, hd, hm]
      exact h2
    | some rem =>
      have hrem := c_mod_ne _ _ _ hm
      rw [overwrite_eq w path method passes verbose fb rem hfd hst hd hm]
      simp only []
      split_ifs
      · exact overwrite_passes_failed w verbose _ _ _ fb rem passes hrem _
          (generate_buffer_clean w _ _ _ _ h2)
      · exact overwrite_passes_failed w verbose _ _ _ fb rem passes hrem _
          (generate_buffer_clean w _ _ _ _ h2)
      · exact overwrite_passes_failed w verbose _ _ _ fb rem passes hrem _
          (generate_random_buffer_clean w _ _ _ h2)
      · left
        simpa using h2

/-- The run of method `zero` with two passes over a file of 10000 bytes in
blocks of 4096 bytes: in each pass two writes of 4096 zero bytes, one write of
1808 zero bytes, then the flush. -/
theorem overwrite_zero_10000 :
    (overwrite (sound_world 10000 4096) "secret.txt" "zero" 2 0).ret = some 0
    ∧ (overwrite (sound_world 10000 4096) "secret.txt" "zero" 2 0).ops
        = [Event.c_open "secret.txt" OFlag.O_WRONLY 3, Event.c_fstat 3 0,
            Event.c_posix_memalign 4096 4096 0,
            Event.c_lseek 3 0 0,
            Event.c_write 3 (some (List.replicate 4096 0)) 4096 4096,
            Event.c_write 3 (some (List.replicate 4096 0)) 4096 4096,
            Event.c_write 3 (some (List.replicate 4096 0)) 1808 1808,
            Event.c_fsync 3 0,
            Event.c_lseek 3 0 0,
            Event.c_write 3 (some (List.replicate 4096 0)) 4096 4096,
            Event.c_write 3 (some (List.replicate 4096 0)) 4096 4096,
            Event.c_write 3 (some (List.replicate 4096 0)) 1808 1808,
            Event.c_fsync 3 0,
            Event.c_free (some (List.replicate 4096 0)),
            Event.c_fsync 3 0,
            Event.c_close 3]
    ∧ written (pass_ops 3 (some (List.replicate 4096 0)) 4096 2 1808)
        = List.replicate 10000 0 :=
  overwrite_fixed_sound (sound_world 10000 4096) "secret.txt" "zero" 2 0 10000 4096 0
    (by decide) (by decide) (by decide) (by decide) rfl rfl (Or.inl ⟨rfl, rfl⟩)
    (sound_world_sound 10000 4096 "secret.txt")

/-- The requests of the inner loop when it runs to its end. -/
theorem write_blocks_steps (w : World) (v fd : Int) (buf : Option (List Byte)) (bs fb : Int) :
    ∀ (k : Nat) (j : Int) (s : State),
      (write_blocks w v fd buf bs fb k j s).1 = true →
      (write_blocks w v fd buf bs fb k j s).2.ops.filterMap Event.step
        = s.ops.filterMap Event.step ++ List.replicate k (Step.write bs) := by
  intro k
  induction k with
  | zero => intro j s _; simp [write_blocks]
  | succ k ih =>
    intro j s
    simp only [write_blocks, print_verbose_ops]
    by_cases hr : w.c_write s.ops fd buf bs < 1
    · simp [hr]
    · simp only [hr, if_false]
      intro h
      rw [ih _ _ h]
      simp [List.filterMap_append, Event.step, List.replicate_succ]

/-- The requests of the outer loop when it runs to its end. -/
theorem pass_loop_steps (w : World) (v fd : Int) (buf : Option (List Byte))
    (bs fb rem passes : Int) :
    ∀ (k : Nat) (i : Int) (s : State),
      (pass_loop w v fd buf bs fb rem passes k i s).1 = true →
      (pass_loop w v fd buf bs fb rem passes k i s).2.ops.filterMap Event.step
        = s.ops.filterMap Event.step ++ (List.replicate k (pass_steps bs fb rem)).flatten := by
  intro k
  induction k with
  | zero => intro i s _; simp [pass_loop]
  | succ k ih =>
    intro i s
    simp only [pass_loop, print_verbose_ops]
    by_cases h1 : w.c_lseek s.ops fd 0 < 0
    · simp [h1]
    · simp only [h1, if_false]
      have hb := write_blocks_steps w v fd buf bs fb fb.toNat 0
        ((print_verbose v "Rewinding file\n"
          (print_verbose v
            ("Starting pass " ++ toString (i + 1) ++ "/" ++ toString passes ++ "\n") s)).log
          (Event.c_lseek fd 0 (w.c_lseek s.ops fd 0)))
      revert hb
      generalize write_blocks w v fd buf bs fb fb.toNat 0 _ = x
      obtain ⟨xb, xs⟩ := x
      cases xb with
      | false => simp
      | true =>
        intro hb
        have hb := hb rfl
        simp only [State.log_ops, print_verbose_ops, List.filterMap_append] at hb
        simp only [print_verbose_ops]
        by_cases h2 : w.c_write xs.ops fd buf rem < 0
        · simp [h2]
        · simp only [h2, if_false, State.log_ops, print_verbose_ops]
          by_cases h3 : w.c_fsync (xs.ops ++ [Event.c_write fd buf rem (w.c_write xs.ops fd buf rem)]) fd < 0
          · simp [h3]
          · simp only [h3, if_false]
            intro h
            rw [ih _ _ h]
            simp only [State.log_ops, print_verbose_ops, List.filterMap_append, hb]
            simp [Event.step, pass_steps, List.replicate_succ]

theorem generate_buffer_steps (w : World) (bs : Int) (val : Byte) (s : State) :
    (generate_buffer w bs val s).2.ops.filterMap Event.step = s.ops.filterMap Event.step := by
  unfold generate_buffer
  simp only []
  split_ifs <;> simp [List.filterMap_append, Event.step]

theorem generate_random_buffer_steps (w : World) (bs : Int) (s : State) :
    (generate_random_buffer w bs s).2.ops.filterMap Event.step
      = s.ops.filterMap Event.step := by
  unfold generate_random_buffer
  simp only []
  split_ifs <;> simp [List.filterMap_append, Event.step]

theorem overwrite_passes_steps (w : World) (v fd : Int) (buf : Option (List Byte))
    (bs fb rem passes : Int) (s : State)
    (hret : (overwrite_passes w v fd buf bs fb rem passes s).ret = some 0) :
    (overwrite_passes w v fd buf bs fb rem passes s).ops.filterMap Event.step
      = s.ops.filterMap Event.step
        ++ (List.replicate passes.toNat (pass_steps bs fb rem)).flatten ++ [Step.flush] := by
  revert hret
  unfold overwrite_passes
  simp only []
  have hb := pass_loop_steps w v fd buf bs fb rem passes passes.toNat 0
    (print_verbose v "Starting overwrite\n" s)
  revert hb
  generalize pass_loop w v fd buf bs fb rem passes passes.toNat 0 _ = x
  obtain ⟨xb, xs⟩ := x
  cases xb with
  | false => simp
  | true =>
    intro hb _
    have hb := hb rfl
    simp only [print_verbose_ops] at hb
    simp [List.filterMap_append, hb, Event.step]

/-- The requests of a successful run of `overwrite`: the passes, each of them
whole, and one more flush. -/
theorem overwrite_steps (w : World) (path method : String) (passes verbose fb rem : Int)
    (hd : c_div (toInt32 w.st_size) (toInt32 w.st_blksize) = some fb)
    (hm : c_mod (toInt32 w.st_size) (toInt32 w.st_blksize) = some rem)
    (hret : (overwrite w path method passes verbose).ret = some 0) :
    (overwrite w path method passes verbose).ops.filterMap Event.step
      = (List.replicate passes.toNat (pass_steps (toInt32 w.st_blksize) fb rem)).flatten
        ++ [Step.flush] := by
  by_cases hfd : 0 ≤ w.c_open path OFlag.O_WRONLY
  swap
  · exfalso
    revert hret
    unfold overwrite
    simp [not_le.mp hfd]
  by_cases hst : 0 ≤ w.c_fstat (w.c_open path OFlag.O_WRONLY)
  swap
  · exfalso
    revert hret
    unfold overwrite
    simp [not_lt.mpr hfd, not_le.mp hst]
  rw [overwrite_eq w path method passes verbose fb rem hfd hst hd hm] at hret ⊢
  simp only [] at hret ⊢
  split_ifs at hret ⊢
  · rw [overwrite_passes_steps w verbose _ _ _ fb rem passes _ hret, generate_buffer_steps]
    simp [Event.step]
  · rw [overwrite_passes_steps w verbose _ _ _ fb rem passes _ hret, generate_buffer_steps]
    simp [Event.step]
  · rw [overwrite_passes_steps w verbose _ _ _ fb rem passes _ hret,
      generate_random_buffer_steps]
    simp [Event.step]
  · simp at hret

/-- The run of method `rand` on sizes that fit an `int` when the single `read`
returns `n ≥ 0` bytes and every other call succeeds. -/
theorem overwrite_rand_sound (w : World) (path : String) (passes verbose S B n : Int)
    (hS : 0 ≤ S) (hS' : S ≤ INT_MAX) (hB : 0 < B) (hB' : B ≤ INT_MAX)
    (hsize : w.st_size = S) (hblk : w.st_blksize = B) (hn : 0 ≤ n)
    (hufd : 0 ≤ w.c_open "/dev/urandom" OFlag.O_RDONLY)
    (hread : w.c_read (w.c_open "/dev/urandom" OFlag.O_RDONLY) B = n)
    (hsound : w.sound path) :
    (overwrite w path "rand" passes verbose).ret = some 0
    ∧ (overwrite w path "rand" passes verbose).ops
        = [Event.c_open path OFlag.O_WRONLY (w.c_open path OFlag.O_WRONLY),
           Event.c_fstat (w.c_open path OFlag.O_WRONLY) 0,
           Event.c_open "/dev/urandom" OFlag.O_RDONLY (w.c_open "/dev/urandom" OFlag.O_RDONLY),
           Event.c_posix_memalign B B 0,
           Event.c_read (w.c_open "/dev/urandom" OFlag.O_RDONLY) B n,
           Event.c_close (w.c_open "/dev/urandom" OFlag.O_RDONLY)]
          ++ (List.replicate passes.toNat
                (pass_ops (w.c_open path OFlag.O_WRONLY) (some (random_block w B n))
                  B (S / B) (S % B))).flatten
          ++ [Event.c_free (some (random_block w B n)),
              Event.c_fsync (w.c_open path OFlag.O_WRONLY) 0,
              Event.c_close (w.c_open path OFlag.O_WRONLY)] := by
  refine ⟨overwrite_sound_ret w path "rand" passes verbose S B hS hS' hB hB' hsize hblk
    (Or.inr (Or.inr rfl)) hsound, ?_⟩
  obtain ⟨hfd, hst, hmem, hseek, hwrite, hsync⟩ := hsound
  obtain ⟨hd, hm⟩ := sizes_of_int S B hS hS' hB hB'
  have hbs : toInt32 B = B := toInt32_of_int B (by unfold INT_MIN; omega) hB'
  have hrem0 : 0 ≤ S % B := Int.emod_nonneg S (by omega)
  rw [← hsize, ← hblk] at hd hm
  rw [overwrite_eq w path "rand" passes verbose _ _ hfd (by omega) hd hm]
  simp only []
  rw [hblk, hbs, hsize, hst]
  rw [if_neg (by decide), if_neg (by decide), if_pos (by rfl)]
  rw [(overwrite_passes_sound w verbose _ _ B _ _ passes (by omega) hrem0 hseek hwrite
    hsync _).2]
  simp [generate_random_buffer, hmem, hread, not_lt.mpr hn, not_lt.mpr hufd]

theorem short_read_world_sound (path : String) : short_read_world.sound path := by
  refine ⟨?_, rfl, fun _ _ => rfl, fun _ _ => rfl, fun _ _ _ _ => rfl, fun _ _ => rfl⟩
  show (0 : Int) ≤ if path = "/dev/urandom" then 4 else 3
  split <;> decide

@[simp]
theorem State.log_out (s : State) (e : Event) : (s.log e).out = s.out := rfl

@[simp]
theorem State.finish_out (s : State) (r : Option Int) : (s.finish r).out = s.out := rfl

@[simp]
theorem print_verbose_zero (t : String) (s : State) : print_verbose 0 t s = s := by
  simp [print_verbose]

@[simp]
theorem print_error_verbose_zero (e : Int) (m : String) (s : State) :
    print_error_verbose 0 e m s = s := by
  simp [print_error_verbose]

/-- The inner loop prints nothing when the verbosity is zero. -/
theorem write_blocks_quiet (w : World) (fd : Int) (buf : Option (List Byte)) (bs fb : Int) :
    ∀ (k : Nat) (j : Int) (s : State),
      (write_blocks w 0 fd buf bs fb k j s).2.out = s.out := by
  intro k
  induction k with
  | zero => intro j s; rfl
  | succ k ih =>
    intro j s
    simp only [write_blocks, print_verbose_zero, print_error_verbose_zero]
    split_ifs
    · rfl
    · rw [ih]; rfl

/-- The outer loop prints nothing when the verbosity is zero. -/
theorem pass_loop_quiet (w : World) (fd : Int) (buf : Option (List Byte))
    (bs fb rem passes : Int) :
    ∀ (k : Nat) (i : Int) (s : State),
      (pass_loop w 0 fd buf bs fb rem passes k i s).2.out = s.out := by
  intro k
  induction k with
  | zero => intro i s; rfl
  | succ k ih =>
    intro i s
    simp only [pass_loop, print_verbose_zero, print_error_verbose_zero]
    split_ifs
    · rfl
    · have hb := write_blocks_quiet w fd buf bs fb fb.toNat 0
        (s.log (Event.c_lseek fd 0 (w.c_lseek s.ops fd 0)))
      revert hb
      generalize write_blocks w 0 fd buf bs fb fb.toNat 0 _ = x
      obtain ⟨xb, xs⟩ := x
      intro hb
      simp only [State.log_out] at hb
      cases xb with
      | false => exact hb
      | true =>
        simp only []
        split_ifs
        · exact hb
        · exact hb
        · rw [ih]; exact hb

theorem overwrite_passes_quiet (w : World) (fd : Int) (buf : Option (List Byte))
    (bs fb rem passes : Int) (s : State) :
    (overwrite_passes w 0 fd buf bs fb rem passes s).out = s.out := by
  unfold overwrite_passes
  simp only [print_verbose_zero]
  have hb := pass_loop_quiet w fd buf bs fb rem passes passes.toNat 0 s
  revert hb
  generalize pass_loop w 0 fd buf bs fb rem passes passes.toNat 0 _ = x
  obtain ⟨xb, xs⟩ := x
  intro hb
  cases xb with
  | false => exact hb
  | true => exact hb

theorem generate_buffer_out (w : World) (bs : Int) (val : Byte) (s : State) :
    (generate_buffer w bs val s).2.out = s.out := by
  unfold generate_buffer
  simp only []
  split_ifs <;> rfl

theorem generate_random_buffer_out (w : World) (bs : Int) (s : State) :
    (generate_random_buffer w bs s).2.out = s.out := by
  unfold generate_random_buffer
  simp only []
  split_ifs <;> rfl

/-- A run of `overwrite` with verbosity zero prints nothing. -/
theorem overwrite_quiet (w : World) (path method : String) (passes : Int) :
    (overwrite w path method passes 0).out = [] := by
  unfold overwrite
  simp only [print_error_verbose_zero]
  by_cases hfd : w.c_open path OFlag.O_WRONLY < 0
  · simp only [hfd, if_true]; rfl
  · simp only [hfd, if_false]
    by_cases hst : w.c_fstat (w.c_open path OFlag.O_WRONLY) < 0
    · simp only [hst, if_true]; rfl
    · simp only [hst, if_false]
      cases c_div (toInt32 w.st_size) (toInt32 w.st_blksize) with
      | none => rfl
      | some fb =>
        cases c_mod (toInt32 w.st_size) (toInt32 w.st_blksize) with
        | none => rfl
        | some rem =>
          simp only []
          split_ifs
          · rw [overwrite_passes_quiet, generate_buffer_out]; rfl
          · rw [overwrite_passes_quiet, generate_buffer_out]; rfl
          · rw [overwrite_passes_quiet, generate_random_buffer_out]; rfl
          · rfl

/-! ## The claims of the specification -/

/-- Claim C1, at a file of 4 GiB.  The claim asks for `S` bytes of the fill
value in every pass for every size `S`.  For `S = 4294967296` and blocks of
4096 bytes, with every call succeeding, `overwrite` returns success after a
single `write` of zero bytes: `file_size` is an `int` and holds 0.  (For
sizes that fit an `int` the claim holds, see `overwrite_fixed_sound` and
`overwrite_zero_10000`.) -/
theorem overwrite_skips_4GiB_file :
    (overwrite (sound_world 4294967296 4096) "secret.txt" "zero" 1 0).ret = some 0
    ∧ (overwrite (sound_world 4294967296 4096) "secret.txt" "zero" 1 0).ops.filterMap
        Event.transfer = [(0, 0)]
    ∧ written (overwrite (sound_world 4294967296 4096) "secret.txt" "zero" 1 0).ops = [] := by
  refine ⟨?_, ?_, ?_⟩ <;> decide

/-- Claim C2 fails as stated: a successful single pass over a file of 8192
bytes in blocks of 4096 bytes issues three calls of `write`, the third one
for a remainder of zero bytes, and two calls of `fsync`, where the claim
counts `1 * ceil(8192 / 4096) = 2` writes and one flush. -/
theorem remainder_write_and_last_fsync_issued :
    (overwrite (sound_world 8192 4096) "secret.txt" "zero" 1 0).ret = some 0
    ∧ (overwrite (sound_world 8192 4096) "secret.txt" "zero" 1 0).ops.filterMap Event.transfer
        = [(4096, 4096), (4096, 4096), (0, 0)]
    ∧ count_writes (overwrite (sound_world 8192 4096) "secret.txt" "zero" 1 0).ops = 3
    ∧ count_writes (overwrite (sound_world 8192 4096) "secret.txt" "zero" 1 0).ops
        ≠ 1 * ((8192 + 4096 - 1) / 4096)
    ∧ count_fsyncs (overwrite (sound_world 8192 4096) "secret.txt" "zero" 1 0).ops = 2
    ∧ count_fsyncs (overwrite (sound_world 8192 4096) "secret.txt" "zero" 1 0).ops ≠ 1 := by
  refine ⟨?_, ?_, ?_, ?_, ?_, ?_⟩ <;> decide

/-- Claim C2, amended.  For sizes `S` and `B` that fit an `int` and a pass
count `passes` that is not negative, every successful run of `overwrite` asks
of the file, `passes` times over, a rewind, `S / B` writes of a whole block,
one write of the remainder `S % B` (also when the remainder is zero) and a
flush, and after the passes one more flush: `passes * (S / B)` writes of a
block and `passes` writes of the remainder, `passes * (S / B + 1)` writes in
all, and `passes + 1` calls of `fsync`.  The run succeeds, for each of the three
methods, when every call succeeds. -/
theorem overwrite_call_counts (w : World) (path method : String) (passes verbose S B : Int)
    (hS : 0 ≤ S) (hS' : S ≤ INT_MAX) (hB : 0 < B) (hB' : B ≤ INT_MAX) (hP : 0 ≤ passes)
    (hsize : w.st_size = S) (hblk : w.st_blksize = B) :
    ((overwrite w path method passes verbose).ret = some 0 →
      (overwrite w path method passes verbose).ops.filterMap Event.step
          = (List.replicate passes.toNat (pass_steps B (S / B) (S % B))).flatten
            ++ [Step.flush]
      ∧ (count_writes_of B (overwrite w path method passes verbose).ops : Int)
          = passes * (S / B)
      ∧ (count_writes_of (S % B) (overwrite w path method passes verbose).ops : Int) = passes
      ∧ (count_writes (overwrite w path method passes verbose).ops : Int)
          = passes * (S / B + 1)
      ∧ (count_fsyncs (overwrite w path method passes verbose).ops : Int) = passes + 1)
    ∧ ((method = "zero" ∨ method = "one" ∨ method = "rand") → w.sound path →
        (overwrite w path method passes verbose).ret = some 0) := by
  refine ⟨?_, fun hmethod hsound =>
    overwrite_sound_ret w path method passes verbose S B hS hS' hB hB' hsize hblk hmethod hsound⟩
  intro hret
  subst hsize hblk
  obtain ⟨hd, hm⟩ := sizes_of_int w.st_size w.st_blksize hS hS' hB hB'
  have hbs : toInt32 w.st_blksize = w.st_blksize :=
    toInt32_of_int _ (by unfold INT_MIN; omega) hB'
  have hrem0 : 0 ≤ w.st_size % w.st_blksize := Int.emod_nonneg _ (by omega)
  have hremB : w.st_size % w.st_blksize < w.st_blksize := Int.emod_lt_of_pos _ hB
  have hfb : 0 ≤ w.st_size / w.st_blksize := Int.ediv_nonneg hS (le_of_lt hB)
  have hfb' : ((w.st_size / w.st_blksize).toNat : Int) = w.st_size / w.st_blksize :=
    Int.toNat_of_nonneg hfb
  have hP' : (passes.toNat : Int) = passes := Int.toNat_of_nonneg hP
  have hne : w.st_size % w.st_blksize ≠ w.st_blksize := by omega
  have hne' : w.st_blksize ≠ w.st_size % w.st_blksize := by omega
  refine ⟨?_, ?_, ?_, ?_, ?_⟩
  · have h := overwrite_steps w path method passes verbose _ _ hd hm hret
    rw [hbs] at h
    exact h
  · unfold count_writes_of
    rw [overwrite_countP w path method passes verbose _ _ _ false true false false hd hm
      (by intro e h1 h2 h3; cases e <;> simp_all [Event.transfer, Event.is_write])
      (by intros; simp [Event.transfer])
      (by intros; simp [Event.transfer, hbs])
      (by intros; simp [Event.transfer, hne])
      (by intros; simp [Event.transfer]) hret]
    simp only [Nat.cast_add, Nat.cast_mul, Nat.cast_one, Nat.cast_zero, Bool.toNat_true,
      Bool.toNat_false, hfb', hP']
    ring
  · unfold count_writes_of
    rw [overwrite_countP w path method passes verbose _ _ _ false false true false hd hm
      (by intro e h1 h2 h3; cases e <;> simp_all [Event.transfer, Event.is_write])
      (by intros; simp [Event.transfer])
      (by intros; simp [Event.transfer, hbs, hne'])
      (by intros; simp [Event.transfer])
      (by intros; simp [Event.transfer]) hret]
    simp only [Nat.cast_add, Nat.cast_mul, Nat.cast_one, Nat.cast_zero, Bool.toNat_true,
      Bool.toNat_false, hfb', hP']
    ring
  · unfold count_writes
    rw [overwrite_countP w path method passes verbose _ _ _ false true true false hd hm
      (by intro e h1 h2 h3; exact h2)
      (by intros; rfl) (by intros; rfl) (by intros; rfl) (by intros; rfl) hret]
    simp only [Nat.cast_add, Nat.cast_mul, Nat.cast_one, Nat.cast_zero, Bool.toNat_true,
      Bool.toNat_false, hfb', hP']
    ring
  · unfold count_fsyncs
    rw [overwrite_countP w path method passes verbose _ _ _ false false false true hd hm
      (by intro e h1 h2 h3; exact h3)
      (by intros; rfl) (by intros; rfl) (by intros; rfl) (by intros; rfl) hret]
    simp only [Nat.cast_add, Nat.cast_mul, Nat.cast_one, Nat.cast_zero, Bool.toNat_true,
      Bool.toNat_false, hfb', hP']
    ring

/-- The amended claim C2 at an empty file and two passes: no write of a
whole block, two writes of zero bytes, three calls of `fsync`, success. -/
theorem overwrite_call_counts_witness :
    ((0 : Int) ≤ 0 ∧ (0 : Int) ≤ INT_MAX ∧ (0 : Int) < 4096 ∧ (4096 : Int) ≤ INT_MAX
      ∧ (0 : Int) ≤ 2 ∧ (sound_world 0 4096).st_size = 0
      ∧ (sound_world 0 4096).st_blksize = 4096)
    ∧ (overwrite (sound_world 0 4096) "empty.txt" "one" 2 0).ret = some 0
    ∧ (overwrite (sound_world 0 4096) "empty.txt" "one" 2 0).ops.filterMap Event.step
        = (List.replicate (2 : Int).toNat (pass_steps 4096 (0 / 4096) (0 % 4096))).flatten
          ++ [Step.flush]
    ∧ (count_writes_of 4096 (overwrite (sound_world 0 4096) "empty.txt" "one" 2 0).ops : Int)
        = 2 * (0 / 4096)
    ∧ (count_writes_of (0 % 4096) (overwrite (sound_world 0 4096) "empty.txt" "one" 2 0).ops
        : Int) = 2
    ∧ (count_writes (overwrite (sound_world 0 4096) "empty.txt" "one" 2 0).ops : Int)
        = 2 * (0 / 4096 + 1)
    ∧ (count_fsyncs (overwrite (sound_world 0 4096) "empty.txt" "one" 2 0).ops : Int)
        = 2 + 1 :=
  have h := overwrite_call_counts (sound_world 0 4096) "empty.txt" "one" 2 0 0 4096
    (by decide) (by decide) (by decide) (by decide) (by decide) rfl rfl
  have hret := h.2 (Or.inr (Or.inl rfl)) (sound_world_sound 0 4096 "empty.txt")
  ⟨⟨by decide, by decide, by decide, by decide, by decide, rfl, rfl⟩, hret, h.1 hret⟩

/-- Claim C3, at files of 4 GiB and of 3000000000 bytes in blocks of 4096
bytes.  For `st_size = 4294967296` the `int` variable `file_size` holds 0, so
`full_buffers` and `remainder` are both 0, the run asks for one write of zero
bytes, and `full_buffers * B + remainder` is not the size of the file.  For
`st_size = 3000000000` the variable holds a negative value and `remainder` is
`-512`. -/
theorem sizes_truncated_at_4GiB :
    toInt32 4294967296 = 0
    ∧ c_div (toInt32 4294967296) (toInt32 4096) = some 0
    ∧ c_mod (toInt32 4294967296) (toInt32 4096) = some 0
    ∧ (0 : Int) * 4096 + 0 ≠ 4294967296
    ∧ (overwrite (sound_world 4294967296 4096) "secret.txt" "zero" 1 0).ops.filterMap
        Event.step = [Step.seek, Step.write 0, Step.flush, Step.flush]
    ∧ toInt32 3000000000 = -1294967296
    ∧ c_div (toInt32 3000000000) (toInt32 4096) = some (-316154)
    ∧ c_mod (toInt32 3000000000) (toInt32 4096) = some (-512) := by
  refine ⟨?_, ?_, ?_, ?_, ?_, ?_, ?_, ?_⟩ <;> decide

/-- Claim C4 fails as stated: when every `write` of a block of 4096 bytes
transfers only 2048 of them, `overwrite` does not return failure: it goes on,
issues the remaining writes and the flushes, and returns success. -/
theorem short_write_accepted :
    (overwrite short_write_world "secret.txt" "zero" 1 0).ops.filterMap Event.transfer
        = [(4096, 2048), (4096, 2048), (1808, 1808)]
    ∧ (overwrite short_write_world "secret.txt" "zero" 1 0).ops.filterMap Event.step
        = [Step.seek, Step.write 4096, Step.write 4096, Step.write 1808, Step.flush,
            Step.flush]
    ∧ (overwrite short_write_world "secret.txt" "zero" 1 0).ret = some 0
    ∧ (overwrite short_write_world "secret.txt" "zero" 1 0).ret ≠ some (-1) := by
  refine ⟨?_, ?_, ?_, ?_⟩ <;> decide

/-- Claim C4, amended.  If a call of `write` returns a negative value, or a
`write` of a whole block transfers no byte at all, then `overwrite` returns
`-1` and issues no `write` and no `fsync` after that call. -/
theorem failed_write_aborts (w : World) (path method : String) (passes verbose : Int)
    (pre post : List Event) (e : Event)
    (hops : (overwrite w path method passes verbose).ops = pre ++ e :: post)
    (hfail : e.failed_write (toInt32 w.st_blksize) = true) :
    (overwrite w path method passes verbose).ret = some (-1)
    ∧ ∀ x ∈ post, x.is_write = false ∧ x.is_fsync = false := by
  have hmem : e ∈ (overwrite w path method passes verbose).ops := by
    rw [hops]; simp
  rcases overwrite_failed w path method passes verbose with h | ⟨hret, t, e', ht, hc⟩
  · have := h e hmem
    rw [hfail] at this
    exact absurd this (by decide)
  · rw [ht] at hops
    rcases last_of_append_eq t pre post e e' hops with h | h
    · have := hc e h
      rw [hfail] at this
      exact absurd this (by decide)
    · subst h
      exact ⟨hret, by simp⟩

/-- The amended claim C4 at a disk that is full after the first block. -/
theorem failed_write_aborts_witness :
    ((overwrite disk_full_world "secret.txt" "zero" 2 0).ops
        = [Event.c_open "secret.txt" OFlag.O_WRONLY 3, Event.c_fstat 3 0,
            Event.c_posix_memalign 4096 4096 0, Event.c_lseek 3 0 0,
            Event.c_write 3 (some (List.replicate 4096 0)) 4096 4096]
          ++ Event.c_write 3 (some (List.replicate 4096 0)) 4096 (-1) :: []
      ∧ (Event.c_write 3 (some (List.replicate 4096 0)) 4096 (-1)).failed_write
          (toInt32 disk_full_world.st_blksize) = true)
    ∧ (overwrite disk_full_world "secret.txt" "zero" 2 0).ret = some (-1)
    ∧ ∀ x ∈ ([] : List Event), x.is_write = false ∧ x.is_fsync = false :=
  ⟨⟨rfl, by decide⟩,
   failed_write_aborts disk_full_world "secret.txt" "zero" 2 0
     [Event.c_open "secret.txt" OFlag.O_WRONLY 3, Event.c_fstat 3 0,
       Event.c_posix_memalign 4096 4096 0, Event.c_lseek 3 0 0,
       Event.c_write 3 (some (List.replicate 4096 0)) 4096 4096]
     [] (Event.c_write 3 (some (List.replicate 4096 0)) 4096 (-1)) rfl (by decide)⟩

/-- Claim C5 fails as stated: when the entropy device delivers 4000 of the
4096 bytes asked for, `generate_random_buffer` does not report a failure but
returns the block, and `overwrite` with method `rand` writes it over the file
of 10000 bytes and returns success. -/
theorem short_entropy_read_accepted :
    short_read_world.c_read 4 4096 = 4000
    ∧ (generate_random_buffer short_read_world 4096 { ops := [], out := [] }).1
        = some (random_block short_read_world 4096 4000)
    ∧ (generate_random_buffer short_read_world 4096 { ops := [], out := [] }).1 ≠ none
    ∧ (overwrite short_read_world "secret.txt" "rand" 1 0).ops.filterMap Event.transfer
        = [(4096, 4096), (4096, 4096), (1808, 1808)]
    ∧ (overwrite short_read_world "secret.txt" "rand" 1 0).ret = some 0
    ∧ (overwrite short_read_world "secret.txt" "rand" 1 0).ret ≠ some (-1) := by
  refine ⟨rfl, rfl, ?_, ?_, ?_, ?_⟩ <;> decide

/-- Claim C5, amended.  For every block size `B > 0` and every `n` with
`0 ≤ n < B`, the sizes fitting an `int`: if the single `read` of `B` bytes
returns only `n` bytes and every other call succeeds, then
`generate_random_buffer` accepts the short read and returns the block of `B`
bytes whose first `n` bytes are those of the entropy device, and `overwrite`
with method `rand` writes that block over the file in every pass and returns
success. -/
theorem random_buffer_short_read (w : World) (path : String) (passes verbose S B n : Int)
    (s : State)
    (hS : 0 ≤ S) (hS' : S ≤ INT_MAX) (hB : 0 < B) (hB' : B ≤ INT_MAX)
    (hsize : w.st_size = S) (hblk : w.st_blksize = B)
    (hn : 0 ≤ n) (hnB : n < B)
    (hufd : 0 ≤ w.c_open "/dev/urandom" OFlag.O_RDONLY)
    (hread : w.c_read (w.c_open "/dev/urandom" OFlag.O_RDONLY) B = n)
    (hsound : w.sound path) :
    (generate_random_buffer w B s).1 = some (random_block w B n)
    ∧ ((random_block w B n).length : Int) = B
    ∧ (∀ k : Nat, (k : Int) < n → (random_block w B n)[k]? = some (w.entropy k))
    ∧ (overwrite w path "rand" passes verbose).ret = some 0
    ∧ (overwrite w path "rand" passes verbose).ops
        = [Event.c_open path OFlag.O_WRONLY (w.c_open path OFlag.O_WRONLY),
           Event.c_fstat (w.c_open path OFlag.O_WRONLY) 0,
           Event.c_open "/dev/urandom" OFlag.O_RDONLY (w.c_open "/dev/urandom" OFlag.O_RDONLY),
           Event.c_posix_memalign B B 0,
           Event.c_read (w.c_open "/dev/urandom" OFlag.O_RDONLY) B n,
           Event.c_close (w.c_open "/dev/urandom" OFlag.O_RDONLY)]
          ++ (List.replicate passes.toNat
                (pass_ops (w.c_open path OFlag.O_WRONLY) (some (random_block w B n))
                  B (S / B) (S % B))).flatten
          ++ [Event.c_free (some (random_block w B n)),
              Event.c_fsync (w.c_open path OFlag.O_WRONLY) 0,
              Event.c_close (w.c_open path OFlag.O_WRONLY)] := by
  have hmem : w.c_posix_memalign B B = 0 := hsound.2.2.1 B B
  refine ⟨?_, ?_, ?_, overwrite_rand_sound w path passes verbose S B n hS hS' hB hB' hsize hblk
    hn hufd hread hsound⟩
  · unfold generate_random_buffer
    simp [hread, hmem, not_lt.mpr hn, not_lt.mpr hufd]
  · rw [random_block_length]; omega
  · intro k hk
    have hk' : k < B.toNat := by omega
    simp [random_block, List.getElem?_map, List.getElem?_range hk', hk]

/-- The amended claim C5 at `B = 4096` and `n = 4000`, on a file of 10000
bytes and one pass. -/
theorem random_buffer_short_read_witness :
    ((0 : Int) ≤ 10000 ∧ (10000 : Int) ≤ INT_MAX ∧ (0 : Int) < 4096 ∧ (4096 : Int) ≤ INT_MAX
      ∧ short_read_world.st_size = 10000 ∧ short_read_world.st_blksize = 4096
      ∧ (0 : Int) ≤ 4000 ∧ (4000 : Int) < 4096
      ∧ 0 ≤ short_read_world.c_open "/dev/urandom" OFlag.O_RDONLY
      ∧ short_read_world.c_read (short_read_world.c_open "/dev/urandom" OFlag.O_RDONLY) 4096
          = 4000
      ∧ short_read_world.sound "secret.txt")
    ∧ (generate_random_buffer short_read_world 4096 { ops := [], out := [] }).1
        = some (random_block short_read_world 4096 4000)
    ∧ ((random_block short_read_world 4096 4000).length : Int) = 4096
    ∧ (∀ k : Nat, (k : Int) < 4000 →
        (random_block short_read_world 4096 4000)[k]? = some (short_read_world.entropy k))
    ∧ (overwrite short_read_world "secret.txt" "rand" 1 0).ret = some 0
    ∧ (overwrite short_read_world "secret.txt" "rand" 1 0).ops
        = [Event.c_open "secret.txt" OFlag.O_WRONLY 3,
           Event.c_fstat 3 0,
           Event.c_open "/dev/urandom" OFlag.O_RDONLY 4,
           Event.c_posix_memalign 4096 4096 0,
           Event.c_read 4 4096 4000,
           Event.c_close 4]
          ++ (List.replicate (1 : Int).toNat
                (pass_ops 3 (some (random_block short_read_world 4096 4000))
                  4096 (10000 / 4096) (10000 % 4096))).flatten
          ++ [Event.c_free (some (random_block short_read_world 4096 4000)),
              Event.c_fsync 3 0,
              Event.c_close 3] :=
  ⟨⟨by decide, by decide, by decide, by decide, rfl, rfl, by decide, by decide, by decide,
      rfl, short_read_world_sound "secret.txt"⟩,
   random_buffer_short_read short_read_world "secret.txt" 1 0 10000 4096 4000
     { ops := [], out := [] } (by decide) (by decide) (by decide) (by decide) rfl rfl
     (by decide) (by decide) (by decide) rfl (short_read_world_sound "secret.txt")⟩

/-- Claim C6, where `/dev/urandom` cannot be opened.  The generation of the
buffer fails and returns the null pointer, and `overwrite` does not look at
it: on an empty file it rewinds, writes, flushes and returns success; on a
file of 10000 bytes it rewinds and issues a `write` from the null pointer
before it returns `-1`. -/
theorem overwrite_ignores_failed_generation :
    (generate_random_buffer (no_entropy_world 0) 4096 { ops := [], out := [] }).1 = none
    ∧ (overwrite (no_entropy_world 0) "secret.txt" "rand" 1 0).ops
        = [Event.c_open "secret.txt" OFlag.O_WRONLY 3,
           Event.c_fstat 3 0,
           Event.c_open "/dev/urandom" OFlag.O_RDONLY (-1),
           Event.c_lseek 3 0 0,
           Event.c_write 3 none 0 0,
           Event.c_fsync 3 0,
           Event.c_free none,
           Event.c_fsync 3 0,
           Event.c_close 3]
    ∧ (overwrite (no_entropy_world 0) "secret.txt" "rand" 1 0).ret = some 0
    ∧ (overwrite (no_entropy_world 10000) "secret.txt" "rand" 1 0).ops
        = [Event.c_open "secret.txt" OFlag.O_WRONLY 3,
           Event.c_fstat 3 0,
           Event.c_open "/dev/urandom" OFlag.O_RDONLY (-1),
           Event.c_lseek 3 0 0,
           Event.c_write 3 none 4096 (-1)]
    ∧ (overwrite (no_entropy_world 10000) "secret.txt" "rand" 1 0).ret = some (-1) := by
  refine ⟨?_, ?_, ?_, ?_, ?_⟩ <;> decide

/-- Claim C7.  For every method other than `zero`, `one` and `rand`, every
world, pass count and verbosity, `overwrite` issues no `write`, no `lseek`
and no `fsync`, and it returns `-1` (wherever the division by the block size
that precedes the choice of the method is defined). -/
theorem overwrite_unknown_method (w : World) (path method : String) (passes verbose : Int)
    (hz : method ≠ "zero") (ho : method ≠ "one") (hr : method ≠ "rand") :
    (c_div (toInt32 w.st_size) (toInt32 w.st_blksize) ≠ none →
      (overwrite w path method passes verbose).ret = some (-1))
    ∧ ∀ e ∈ (overwrite w path method passes verbose).ops,
        e.is_write = false ∧ e.is_lseek = false ∧ e.is_fsync = false := by
  unfold overwrite
  simp only []
  by_cases hfd : w.c_open path OFlag.O_WRONLY < 0
  · simp [hfd, State.log, Event.is_write, Event.is_lseek, Event.is_fsync]
  · simp only [hfd, if_false]
    by_cases hst : w.c_fstat (w.c_open path OFlag.O_WRONLY) < 0
    · simp [hst, State.log, Event.is_write, Event.is_lseek, Event.is_fsync]
    · simp only [hst, if_false]
      cases hd : c_div (toInt32 w.st_size) (toInt32 w.st_blksize) with
      | none => simp [State.log, State.finish, Event.is_write, Event.is_lseek, Event.is_fsync]
      | some fb =>
        cases hm : c_mod (toInt32 w.st_size) (toInt32 w.st_blksize) with
        | none =>
          exfalso
          unfold c_div at hd
          unfold c_mod at hm
          split_ifs at hd hm
        | some rem =>
          simp [METHOD_ZERO, METHOD_ONE, METHOD_RAND, hz, ho, hr, State.log,
            Event.is_write, Event.is_lseek, Event.is_fsync]

/-- Claim C7 at the method `gutmann`, which the source names and does not
implement. -/
theorem overwrite_unknown_method_witness :
    ("gutmann" ≠ "zero" ∧ "gutmann" ≠ "one" ∧ "gutmann" ≠ "rand")
    ∧ (overwrite (sound_world 10000 4096) "secret.txt" "gutmann" 3 1).ret = some (-1)
    ∧ ∀ e ∈ (overwrite (sound_world 10000 4096) "secret.txt" "gutmann" 3 1).ops,
        e.is_write = false ∧ e.is_lseek = false ∧ e.is_fsync = false :=
  have h := overwrite_unknown_method (sound_world 10000 4096) "secret.txt" "gutmann" 3 1
    (by decide) (by decide) (by decide)
  ⟨by decide, h.1 (by decide), h.2⟩

/-- Claim C8, on the early returns.  When `fstat` fails, `overwrite` returns
`-1` and descriptor 3 of the target is still open; when the allocation fails,
`generate_random_buffer` returns with descriptor 4 of `/dev/urandom` still
open; when a `write` fails, `overwrite` returns `-1` with the descriptor open
and the buffer not freed.  A run that reaches the end of `overwrite` closes
both descriptors and frees the buffer. -/
theorem overwrite_leaks_on_failure :
    (overwrite no_stat_world "secret.txt" "zero" 1 0).ops
        = [Event.c_open "secret.txt" OFlag.O_WRONLY 3, Event.c_fstat 3 (-1)]
    ∧ (overwrite no_stat_world "secret.txt" "zero" 1 0).ret = some (-1)
    ∧ open_fds (overwrite no_stat_world "secret.txt" "zero" 1 0).ops [] = [3]
    ∧ (generate_random_buffer no_memory_world 4096 { ops := [], out := [] }).1 = none
    ∧ open_fds (generate_random_buffer no_memory_world 4096 { ops := [], out := [] }).2.ops []
        = [4]
    ∧ (overwrite disk_full_world "secret.txt" "zero" 1 0).ret = some (-1)
    ∧ open_fds (overwrite disk_full_world "secret.txt" "zero" 1 0).ops [] = [3]
    ∧ live_blocks (overwrite disk_full_world "secret.txt" "zero" 1 0).ops 0 = 1
    ∧ (overwrite (sound_world 10000 4096) "secret.txt" "rand" 1 0).ret = some 0
    ∧ open_fds (overwrite (sound_world 10000 4096) "secret.txt" "rand" 1 0).ops [] = []
    ∧ live_blocks (overwrite (sound_world 10000 4096) "secret.txt" "rand" 1 0).ops 0 = 0 := by
  refine ⟨?_, ?_, ?_, ?_, ?_, ?_, ?_, ?_, ?_, ?_, ?_⟩ <;> decide

/-- Claim C9.  Two runs of `overwrite` that differ only in the verbosity
issue the same calls, with the same arguments and results, and return the
same value, in every world; and a run with verbosity zero prints nothing. -/
theorem overwrite_verbose_independent (w : World) (path method : String)
    (passes verbose verbose' : Int) :
    (overwrite w path method passes verbose).ops
        = (overwrite w path method passes verbose').ops
    ∧ (overwrite w path method passes verbose).ret
        = (overwrite w path method passes verbose').ret
    ∧ (overwrite w path method passes 0).out = [] := by
  have h : (overwrite w path method passes verbose).ops
        = (overwrite w path method passes verbose').ops
      ∧ (overwrite w path method passes verbose).ret
        = (overwrite w path method passes verbose').ret := by
    unfold overwrite
    simp only []
    by_cases hfd : w.c_open path OFlag.O_WRONLY < 0
    · simp [hfd]
    · simp only [hfd, if_false]
      by_cases hst : w.c_fstat (w.c_open path OFlag.O_WRONLY) < 0
      · simp [hst]
      · simp only [hst, if_false]
        cases c_div (toInt32 w.st_size) (toInt32 w.st_blksize) with
        | none => simp
        | some fb =>
          cases c_mod (toInt32 w.st_size) (toInt32 w.st_blksize) with
          | none => simp
          | some rem =>
            simp only []
            split_ifs
            · exact overwrite_passes_verbose _ _ _ _ _ _ _ _ _ _ _ rfl
            · exact overwrite_passes_verbose _ _ _ _ _ _ _ _ _ _ _ rfl
            · exact overwrite_passes_verbose _ _ _ _ _ _ _ _ _ _ _ rfl
            · simp
  exact ⟨h.1, h.2, overwrite_quiet w path method passes⟩

/-- Claim C10 fails as stated: on the command line
`--passes=0 --help secret.txt` argp prints the help at `--help` and ends the
process with status 0 before `main` looks at the pass count.  No call of
`overwrite` and no call on a file is made. -/
theorem help_ends_with_status_zero :
    atoi "0" ≤ 0
    ∧ (main (sound_world 10000 4096)
        [Item.option KEY_p "0", Item.option KEY_HELP "", Item.positional "secret.txt"]).status
        = some 0
    ∧ (main (sound_world 10000 4096)
        [Item.option KEY_p "0", Item.option KEY_HELP "", Item.positional "secret.txt"]).calls
        = []
    ∧ (main (sound_world 10000 4096)
        [Item.option KEY_p "0", Item.option KEY_HELP "", Item.positional "secret.txt"]).ops
        = [] := by
  refine ⟨?_, ?_, ?_, ?_⟩ <;> decide

/-- Claim C10, amended.  On every command line whose last `--passes` option
has a value that `atoi` reads as `N ≤ 0`, with any other options and at most
one argument without a flag, `main` ends without a call of `overwrite` and
without a call on any file; and it ends with a status that is not zero unless
the command line holds one of the options `--help`, `--usage` and
`--version`, at which argp itself ends the process. -/
theorem main_rejects_nonpositive_passes (w : World) (pre post : List Item) (arg : String)
    (hlast : ∀ a, Item.option KEY_p a ∉ post)
    (hN : atoi arg ≤ 0)
    (hpos : ((pre ++ Item.option KEY_p arg :: post).filter Item.is_positional).length ≤ 1) :
    (main w (pre ++ Item.option KEY_p arg :: post)).calls = []
    ∧ (main w (pre ++ Item.option KEY_p arg :: post)).ops = []
    ∧ ∃ status, (main w (pre ++ Item.option KEY_p arg :: post)).status = some status
        ∧ ((∀ it ∈ pre ++ Item.option KEY_p arg :: post, it.is_builtin_exit = false) →
            status ≠ 0) := by
  have hspec := argp_parse_spec (pre ++ Item.option KEY_p arg :: post) 0
    { args := none, method := METHOD_ZERO, passes := 1, verbose := 0, unlink := 0 }
    (by simp)
  unfold main
  simp only []
  revert hspec
  cases argp_parse (pre ++ Item.option KEY_p arg :: post) 0
      { args := none, method := METHOD_ZERO, passes := 1, verbose := 0, unlink := 0 } with
  | undefined =>
    intro h
    simp only [] at h
    omega
  | exit st =>
    intro h
    simp only [] at h
    refine ⟨rfl, rfl, st, rfl, ?_⟩
    intro hno
    rcases h with h | ⟨_, it, hit, hb⟩
    · rw [h]
      decide
    · rw [hno it hit] at hb
      exact absurd hb (by decide)
  | done a =>
    intro h
    simp only [] at h
    obtain ⟨hargs, hp⟩ := h
    rw [final_passes_last pre post arg _ hlast] at hp
    cases ha : a.args with
    | none => simp [ha] at hargs
    | some file_path =>
      have hle : a.passes ≤ 0 := by rw [hp]; exact hN
      simp [hle, ha]

/-- The amended claim C10 at `--verbose --passes=0 --method=rand secret.txt`:
no call of `overwrite`, no call on a file, and a status that is not zero. -/
theorem main_rejects_nonpositive_passes_witness :
    ((∀ a, Item.option KEY_p a ∉ [Item.option KEY_m "rand", Item.positional "secret.txt"])
      ∧ atoi "0" ≤ 0
      ∧ (([Item.option KEY_v ""] ++ Item.option KEY_p "0"
            :: [Item.option KEY_m "rand", Item.positional "secret.txt"]).filter
          Item.is_positional).length ≤ 1)
    ∧ (main (sound_world 10000 4096)
        ([Item.option KEY_v ""] ++ Item.option KEY_p "0"
          :: [Item.option KEY_m "rand", Item.positional "secret.txt"])).calls = []
    ∧ (main (sound_world 10000 4096)
        ([Item.option KEY_v ""] ++ Item.option KEY_p "0"
          :: [Item.option KEY_m "rand", Item.positional "secret.txt"])).ops = []
    ∧ ∃ status, (main (sound_world 10000 4096)
        ([Item.option KEY_v ""] ++ Item.option KEY_p "0"
          :: [Item.option KEY_m "rand", Item.positional "secret.txt"])).status = some status
        ∧ status ≠ 0 :=
  have h := main_rejects_nonpositive_passes (sound_world 10000 4096) [Item.option KEY_v ""]
    [Item.option KEY_m "rand", Item.positional "secret.txt"] "0"
    (by simp [KEY_p, KEY_m]) (by decide) (by decide)
  ⟨⟨by simp [KEY_p, KEY_m], by decide, by decide⟩, h.1, h.2.1,
    h.2.2.elim fun status hs => ⟨status, hs.1, hs.2 (by decide)⟩⟩

end Wipe
